import Mathlib

/-!
Verification of the database admin console of the TechDay platform backend
(`backend/app/routers/admin.py` together with `backend/app/config.py`).

The console operates on an SQLite database through SQLAlchemy.  We embed it
shallowly: a table is its ordered column list plus a list of rows, a row is an
association list from column name to an optional string (`none` models SQL
NULL), and the whole database is an association list from table name to table.
Each endpoint body becomes a pure function from the database state to a pair
of an `Except`-style outcome and the database state after the request; an
uncommitted or rolled-back transaction leaves the state component unchanged,
which mirrors SQLAlchemy's rollback-on-error and `begin_nested` (SAVEPOINT)
semantics.
-/

set_option maxRecDepth 8192

namespace AdminConsole

/-- SQL scalar as it travels through this console: `none` is NULL, `some s`
a (stringly typed) value.  All values the console ever binds come from HTTP
path segments, JSON string maps, or CSV cells, so strings suffice. -/
abbrev Value := Option String

/-- A row as produced by `_get_table_columns` consumers: an ordered mapping
from column name to value. -/
abbrev Row := List (String × Value)

/-- One entry of the list returned by `_get_table_columns` (admin.py): the
projection of SQLite's `PRAGMA table_info` used by the console. -/
structure Column where
  name : String
  type : String
  notnull : Bool
  default_value : Value
  pk : Bool
deriving Repr, DecidableEq

/-- A table: its `PRAGMA table_info` column list and its current rows.
(`SELECT *` returns columns in declaration order, so stored rows are kept as
association lists in column order.) -/
structure Table where
  columns : List Column
  rows : List Row
deriving Repr, DecidableEq

/-- The connected database: named tables.  SQLite table names are unique. -/
abbrev Database := List (String × Table)

/-- Outcome taxonomy of a console request.  `http` is a raised
`HTTPException (status_code, detail)`; `dbError` is an exception propagating
out of the SQL layer (e.g. an IntegrityError from a constraint violation),
which FastAPI surfaces as a generic 500; `attributeError` is a Python
`AttributeError` escaping the handler (also a 500). -/
inductive ApiError where
  | http (status : Nat) (detail : String)
  | dbError (detail : String)
  | attributeError (attr : String)
deriving Repr, DecidableEq

/-- Result of a console request together with the database state after the
request (after commit or rollback). -/
abbrev Result (α : Type) := Except ApiError α × Database

/-! ### Settings (`backend/app/config.py`)

`Settings(BaseSettings)` declares exactly the fields below; pydantic v1
exposes no other attributes, so accessing an undeclared attribute raises
`AttributeError`.  We model attribute access by name over the declared
field list. -/

/-- A pydantic field value: the `Settings` class holds strings and one int. -/
inductive PyValue where
  | str (s : String)
  | int (n : Int)
deriving Repr, DecidableEq

/-- The `Settings` class of `config.py`, field for field. -/
structure Settings where
  env : String
  project_name : String
  jwt_secret : String
  jwt_algorithm : String
  access_token_expire_minutes : Int
  admin_email : String
  admin_password : String
  database_url : String
  posts_dir : String
  uploads_dir : String
  admin_db_header_secret : String
deriving Repr, DecidableEq

/-- Python attribute access `getattr(settings, attr)` on a `Settings`
instance: defined exactly for the fields `config.py` declares, and
`none` (an `AttributeError`) for every other name. -/
def settingsAttr (s : Settings) (attr : String) : Option PyValue :=
  if attr = "env" then some (.str s.env)
  else if attr = "project_name" then some (.str s.project_name)
  else if attr = "jwt_secret" then some (.str s.jwt_secret)
  else if attr = "jwt_algorithm" then some (.str s.jwt_algorithm)
  else if attr = "access_token_expire_minutes" then some (.int s.access_token_expire_minutes)
  else if attr = "admin_email" then some (.str s.admin_email)
  else if attr = "admin_password" then some (.str s.admin_password)
  else if attr = "database_url" then some (.str s.database_url)
  else if attr = "posts_dir" then some (.str s.posts_dir)
  else if attr = "uploads_dir" then some (.str s.uploads_dir)
  else if attr = "admin_db_header_secret" then some (.str s.admin_db_header_secret)
  else none

/-- `require_database_password_header` (admin.py lines 19-24): the FastAPI
dependency gating every console endpoint.  It evaluates
`settings.database_admin_password` and compares the `X-Database-Password`
header against it; the attribute lookup happens first, and an undeclared
attribute raises `AttributeError` before any comparison. -/
def require_database_password_header (settings : Settings) (password : String) :
    Except ApiError String :=
  match settingsAttr settings "database_admin_password" with
  | none => .error (.attributeError "database_admin_password")
  | some (.str secret) =>
      if password ≠ secret then .error (.http 403 "数据库密码错误") else .ok password
  | some (.int _) => .error (.dbError "type error in comparison")

/-! ### Schema helpers (admin.py lines 607-635) -/

/-- Code-point-wise comparison of strings (the order SQLite's `ORDER BY`
imposes on text via byte order, byte order and code-point order agreeing on
UTF-8). -/
def charListLe : List Char → List Char → Bool
  | [], _ => true
  | _ :: _, [] => false
  | a :: as, b :: bs => if a < b then true else if b < a then false else charListLe as bs

/-- Insert into a sorted list (helper of `sortNames`). -/
def insertSorted (a : String) : List String → List String
  | [] => [a]
  | b :: bs => if charListLe a.toList b.toList then a :: b :: bs else b :: insertSorted a bs

/-- Sort names ascending, the `ORDER BY name` of `_fetch_table_names`. -/
def sortNames : List String → List String
  | [] => []
  | a :: as => insertSorted a (sortNames as)

/-- `name LIKE 'sqlite_%'`: the name begins with `sqlite_`. -/
def isInternalName (n : String) : Bool :=
  "sqlite_".toList.isPrefixOf n.toList

/-- `_fetch_table_names`: `SELECT name FROM sqlite_master WHERE type='table'
AND name NOT LIKE 'sqlite_%' ORDER BY name`. -/
def fetch_table_names (db : Database) : List String :=
  sortNames ((db.map Prod.fst).filter (fun n => ¬ isInternalName n))

/-- `_ensure_table_exists`: raises a 404 when the name is not among the
current `_fetch_table_names` result. -/
def ensure_table_exists (db : Database) (table_name : String) : Except ApiError Unit :=
  if table_name ∈ fetch_table_names db then .ok () else .error (.http 404 "表不存在")

/-- `_sanitize_table_name`: doubles every `"` so the name can be spliced
into a double-quoted SQL identifier.  Unquoting inverts the doubling, so a
statement built on the sanitized name addresses exactly the table named
`table_name`; the state-level operations below therefore key on the raw
name. -/
def sanitize_table_name (table_name : String) : String :=
  (table_name.toList.map (fun c => if c = '"' then "\"\"" else String.singleton c)).foldl
    (· ++ ·) ""

/-- Resolve a table by name (what the raw SQL statements address after
`_ensure_table_exists` has passed). -/
def getTable (db : Database) (table_name : String) : Option Table :=
  db.lookup table_name

/-- Replace the named table's contents. -/
def setTable (db : Database) (table_name : String) (t : Table) : Database :=
  db.map (fun p => if p.1 = table_name then (p.1, t) else p)

/-- `_get_table_columns`: `PRAGMA table_info` of the table, i.e. its column
descriptors in declaration order. -/
def get_table_columns (t : Table) : List Column :=
  t.columns

/-! ### Row-level SQL semantics (the SQLite side of the statements the
console builds).  Values bind as parameters; identifiers are quoted. -/

/-- The value the engine stores in column `c` for an INSERT providing the
(column, parameter) pairs `data`: the bound parameter when the column is
named, otherwise the column default (NULL when there is none). -/
def effectiveValue (c : Column) (data : Row) : Value :=
  match data.lookup c.name with
  | some v => v
  | none => c.default_value

/-- The row as materialized by an INSERT: every declared column, in
declaration order. -/
def storedRow (cols : List Column) (data : Row) : Row :=
  cols.map (fun c => (c.name, effectiveValue c data))

/-- Constraint check of the engine for one INSERT: a NOT NULL column may not
receive NULL, and a single-column primary key value may not collide with an
existing row. -/
def insertViolation (t : Table) (data : Row) : Bool :=
  (t.columns.any (fun c => c.notnull && (effectiveValue c data).isNone)) ||
  (match t.columns.filter (fun c => c.pk) with
   | [p] =>
       match effectiveValue p data with
       | none => false
       | some v => t.rows.any (fun r => r.lookup p.name = some (some v))
   | _ => false)

/-- `INSERT INTO t (...) VALUES (...)`: appends the materialized row, or
fails with a constraint violation (an IntegrityError in the source). -/
def insertRow (t : Table) (data : Row) : Except ApiError Table :=
  if insertViolation t data then .error (.dbError "constraint violation")
  else .ok { t with rows := t.rows ++ [storedRow t.columns data] }

/-- Sequential execution of one INSERT per record, stopping at the first
failure (the `executemany` the import endpoint issues). -/
def runInserts (t : Table) (records : List Row) : Except ApiError Table :=
  match records with
  | [] => .ok t
  | r :: rs =>
      match insertRow t r with
      | .error e => .error e
      | .ok t' => runInserts t' rs

/-- `UPDATE t SET ... WHERE pk = :v`: returns the engine's rowcount and the
updated table.  Only rows whose `pkName` column equals the bound `pkValue`
change; named columns take their new bound values. -/
def updateWhere (t : Table) (pkName pkValue : String) (data : Row) : Nat × Table :=
  let hit := fun (r : Row) => r.lookup pkName = some (some pkValue)
  let apply := fun (r : Row) =>
    r.map (fun kv => match data.lookup kv.1 with
      | some v => (kv.1, v)
      | none => kv)
  ( t.rows.countP (fun r => hit r),
    { t with rows := t.rows.map (fun r => if hit r then apply r else r) } )

/-- `DELETE FROM t WHERE pk = :v`: rowcount and remaining rows. -/
def deleteWhere (t : Table) (pkName pkValue : String) : Nat × Table :=
  let hit := fun (r : Row) => r.lookup pkName = some (some pkValue)
  ( t.rows.countP (fun r => hit r),
    { t with rows := t.rows.filter (fun r => ¬ hit r) } )

/-! ### Console endpoints (admin.py lines 429-551).

Each endpoint body is modelled after the FastAPI dependencies (`get_db`,
`require_admin`, `require_database_password_header`) have run; the result
pairs the response (or raised error) with the database state after the
request. -/

/-- Response of `GET /database/tables/{table_name}`. -/
structure TableResponse where
  columns : List Column
  rows : List Row
  primary_key : Option String
deriving Repr, DecidableEq

/-- `list_database_tables` (`GET /database/tables`). -/
def list_database_tables (db : Database) : Result (List String) :=
  (.ok (fetch_table_names db), db)

/-- `get_database_table` (`GET /database/tables/{table_name}?limit=N`):
coerces a non-positive limit to 200, requires the table to exist, then
returns the column list, up to `limit` rows, and
`next((col.name for col in columns if col.pk), None)`. -/
def get_database_table (db : Database) (table_name : String) (limit : Int) :
    Result TableResponse :=
  let lim := if limit ≤ 0 then 200 else limit
  match ensure_table_exists db table_name with
  | .error e => (.error e, db)
  | .ok () =>
    match getTable db table_name with
    | none => (.error (.http 404 "表不存在"), db) -- unreachable after the existence check
    | some t =>
      let columns := get_table_columns t
      (.ok { columns := columns
             rows := t.rows.take lim.toNat
             primary_key := (columns.find? (fun c => c.pk)).map Column.name }, db)

/-- `update_database_row` (`PUT /database/tables/{table_name}/rows/{pk_value}`):
existence check, single-primary-key check, non-empty payload check, unknown
field check, then one conditional UPDATE; rowcount 0 raises 404 before the
commit. -/
def update_database_row (db : Database) (table_name pk_value : String) (data : Row) :
    Result String :=
  match ensure_table_exists db table_name with
  | .error e => (.error e, db)
  | .ok () =>
    match getTable db table_name with
    | none => (.error (.http 404 "表不存在"), db) -- unreachable after the existence check
    | some t =>
      let columns := get_table_columns t
      match columns.filter (fun c => c.pk) with
      | [p] =>
        if data = [] then (.error (.http 400 "缺少更新内容"), db)
        else
          let valid_columns := columns.map Column.name
          let invalid_fields := (data.map Prod.fst).filter (fun f => f ∉ valid_columns)
          if invalid_fields ≠ [] then (.error (.http 400 "未知字段"), db)
          else
            let res := updateWhere t p.name pk_value data
            if res.1 = 0 then (.error (.http 404 "记录不存在或未修改"), db)
            else (.ok "updated", setTable db table_name res.2)
      | _ => (.error (.http 400 "该表没有可识别的单一主键，暂不支持编辑"), db)

/-- `create_database_row` (`POST /database/tables/{table_name}/rows`):
existence check, non-empty payload check, unknown field check, then one
INSERT; a constraint violation propagates out of the SQL layer and the
session's rollback leaves the database unchanged. -/
def create_database_row (db : Database) (table_name : String) (data : Row) :
    Result String :=
  match ensure_table_exists db table_name with
  | .error e => (.error e, db)
  | .ok () =>
    match getTable db table_name with
    | none => (.error (.http 404 "表不存在"), db) -- unreachable after the existence check
    | some t =>
      let columns := get_table_columns t
      if data = [] then (.error (.http 400 "缺少创建内容"), db)
      else
        let valid_columns := columns.map Column.name
        let invalid_fields := (data.map Prod.fst).filter (fun f => f ∉ valid_columns)
        if invalid_fields ≠ [] then (.error (.http 400 "未知字段"), db)
        else
          match insertRow t data with
          | .error e => (.error e, db)
          | .ok t' => (.ok "created", setTable db table_name t')

/-- `delete_database_row` (`DELETE /database/tables/{table_name}/rows/{pk_value}`):
existence check, single-primary-key check, then one conditional DELETE;
rowcount 0 raises 404 before the commit. -/
def delete_database_row (db : Database) (table_name pk_value : String) :
    Result String :=
  match ensure_table_exists db table_name with
  | .error e => (.error e, db)
  | .ok () =>
    match getTable db table_name with
    | none => (.error (.http 404 "表不存在"), db) -- unreachable after the existence check
    | some t =>
      let columns := get_table_columns t
      match columns.filter (fun c => c.pk) with
      | [p] =>
        let res := deleteWhere t p.name pk_value
        if res.1 = 0 then (.error (.http 404 "记录不存在"), db)
        else (.ok "deleted", setTable db table_name res.2)
      | _ => (.error (.http 400 "该表没有可识别的单一主键，暂不支持删除"), db)

/-- `delete_database_table` (`DELETE /database/tables/{table_name}`):
existence check, then `DROP TABLE`, committed. -/
def delete_database_table (db : Database) (table_name : String) :
    Result String :=
  match ensure_table_exists db table_name with
  | .error e => (.error e, db)
  | .ok () => (.ok "deleted", db.filter (fun p => p.1 ≠ table_name))

/-! ### Text decoding (`raw_bytes.decode("utf-8-sig")` / `decode("utf-8")`)

A byte is a `Nat`; any value outside the UTF-8 ranges (including ≥ 256) is
rejected.  Python's strict codec rejects overlong encodings, surrogates and
code points above U+10FFFF, which the checks below reproduce. -/

/-- A UTF-8 continuation byte. -/
def isCont (b : Nat) : Bool := 0x80 ≤ b && b ≤ 0xBF

/-- Prepend one decoded code point (helper of the decoder). -/
def utf8Cons (cp : Nat) : Option (List Char) → Option (List Char)
  | some cs => some (Char.ofNat cp :: cs)
  | none => none

/-- The decoding automaton, one byte per step: `pending` continuation bytes
are still expected for the current sequence, `acc` holds the partial code
point, and `minCp` is the smallest code point the current sequence length
may legally produce (rejecting overlong forms).  Surrogates and code points
above U+10FFFF are rejected, as Python's strict codec does. -/
def utf8DecodeAux (pending acc minCp : Nat) : List Nat → Option (List Char)
  | [] => if pending = 0 then some [] else none
  | b :: bs =>
    if pending = 0 then
      if b ≤ 0x7F then utf8Cons b (utf8DecodeAux 0 0 0 bs)
      else if b ≤ 0xC1 then none -- stray continuation byte, or overlong 2-byte lead
      else if b ≤ 0xDF then utf8DecodeAux 1 (b - 0xC0) 0x80 bs
      else if b ≤ 0xEF then utf8DecodeAux 2 (b - 0xE0) 0x800 bs
      else if b ≤ 0xF4 then utf8DecodeAux 3 (b - 0xF0) 0x10000 bs
      else none
    else
      if isCont b then
        if pending = 1 then
          if acc * 0x40 + (b - 0x80) < minCp ||
             (0xD800 ≤ acc * 0x40 + (b - 0x80) && acc * 0x40 + (b - 0x80) ≤ 0xDFFF) ||
             0x10FFFF < acc * 0x40 + (b - 0x80) then none
          else utf8Cons (acc * 0x40 + (b - 0x80)) (utf8DecodeAux 0 0 0 bs)
        else utf8DecodeAux (pending - 1) (acc * 0x40 + (b - 0x80)) minCp bs
      else none

/-- Strict UTF-8 decoding of a byte list, Python `bytes.decode("utf-8")`. -/
def utf8Decode (raw : List Nat) : Option (List Char) :=
  utf8DecodeAux 0 0 0 raw

/-- The UTF-8 byte order mark, `b"\xef\xbb\xbf"`. -/
def bomBytes : List Nat := [0xEF, 0xBB, 0xBF]

/-- Python `bytes.decode("utf-8-sig")`: strip one leading BOM if present,
then decode as UTF-8. -/
def utf8SigDecode (raw : List Nat) : Option (List Char) :=
  match raw with
  | b1 :: b2 :: b3 :: rest =>
    if b1 = 0xEF ∧ b2 = 0xBB ∧ b3 = 0xBF then utf8Decode rest else utf8Decode raw
  | _ => utf8Decode raw

/-- The import endpoint's decoding chain: try `"utf-8-sig"`, and on a
`UnicodeDecodeError` fall back to plain `"utf-8"` (admin.py lines 576-582). -/
def decodeUpload (raw : List Nat) : Option (List Char) :=
  match utf8SigDecode raw with
  | some cs => some cs
  | none => utf8Decode raw

/-! ### CSV parsing (Python `csv` module, default dialect)

`csv.reader` over the decoded text: fields separated by `,`, records by
`\n`, `\r\n` or `\r`, a field starting with `"` is quoted with `""` as an
escaped quote, and a line with no characters yields the empty record `[]`. -/

/-- One step state of the reader: remaining input, whether we are inside a
quoted section, whether the current record has consumed any character,
the current field (reversed), the current record (reversed), and the
records finished so far (reversed). -/
def csvParseAux : List Char → Bool → Bool → List Char → List String → List (List String) →
    List (List String)
  | [], _, started, field, record, records =>
    if started then ((String.mk field.reverse :: record).reverse :: records).reverse
    else records.reverse
  | '"' :: '"' :: rest, true, started, field, record, records =>
    csvParseAux rest true started ('"' :: field) record records
  | '"' :: rest, true, started, field, record, records =>
    csvParseAux rest false started field record records
  | c :: rest, true, started, field, record, records =>
    csvParseAux rest true started (c :: field) record records
  | ',' :: rest, false, _, field, record, records =>
    csvParseAux rest false true [] (String.mk field.reverse :: record) records
  | '\r' :: '\n' :: rest, false, started, field, record, records =>
    csvParseAux rest false false [] []
      ((if started then (String.mk field.reverse :: record).reverse else []) :: records)
  | '\n' :: rest, false, started, field, record, records =>
    csvParseAux rest false false [] []
      ((if started then (String.mk field.reverse :: record).reverse else []) :: records)
  | '\r' :: rest, false, started, field, record, records =>
    csvParseAux rest false false [] []
      ((if started then (String.mk field.reverse :: record).reverse else []) :: records)
  | '"' :: rest, false, _, field, record, records =>
    if field = [] then csvParseAux rest true true field record records
    else csvParseAux rest false true ('"' :: field) record records
  | c :: rest, false, _, field, record, records =>
    csvParseAux rest false true (c :: field) record records

/-- `list(csv.reader(io.StringIO(text)))`. -/
def csvParse (text : List Char) : List (List String) :=
  csvParseAux text false false [] [] []

/-- Python `str.lower()` on the (ASCII) mode strings the console accepts. -/
def pyLower (s : String) : String :=
  String.mk (s.toList.map Char.toLower)

/-- Python `str.strip()`: remove leading and trailing whitespace. -/
def pyStrip (s : String) : String :=
  String.mk (((s.toList.dropWhile Char.isWhitespace).reverse.dropWhile
    Char.isWhitespace).reverse)

/-! ### `csv.DictReader` semantics used by the import endpoint -/

/-- `dict(zip(fieldnames, row))` with `restval`: each (raw, unstripped)
fieldname maps to the cell at its position, positions beyond the record
holding the `restval` `None`. -/
def dictPairs : List String → List String → List (String × Value)
  | [], _ => []
  | f :: fs, cells => (f, cells.head?) :: dictPairs fs cells.tail

/-- The value `row.get(column, "")` yields for one data record: the last
binding of the column in the record's dict wins (later duplicate fieldnames
overwrite earlier ones), and a column absent from the fieldnames gives the
`.get` default `""`. -/
def dictRowGet (fieldnames cells : List String) (column : String) : Value :=
  match ((dictPairs fieldnames cells).reverse).lookup column with
  | some v => v
  | none => some ""

/-- One entry of `rows_to_insert` (admin.py lines 590-595): for each table
column, the record's cell with the empty string normalized to NULL. -/
def cleanedRecord (table_columns fieldnames : List String) (cells : List String) : Row :=
  table_columns.map (fun column =>
    (column,
      let value := dictRowGet fieldnames cells column
      if value = some "" then none else value))

/-- The body of `with db.begin_nested():` (admin.py lines 596-603): in
overwrite mode first `DELETE FROM`, then one INSERT per record; the first
failing INSERT aborts and the savepoint rolls everything back (the caller
keeps the pre-import table). -/
def importTransaction (t : Table) (mode : String) (records : List Row) :
    Except ApiError Table :=
  runInserts (if mode = "overwrite" then { t with rows := [] } else t) records

/-- Response of a successful import. -/
structure ImportResponse where
  status : String
  rows : Nat
  mode : String
deriving Repr, DecidableEq

/-- `import_database_table` (`POST /database/tables/{table_name}/import`,
admin.py lines 554-604): lower-case the mode and reject unknown modes, check
the table exists, read and decode the upload, parse the CSV, check the
stripped header equals the table's column list, build `rows_to_insert`, and
run delete+inserts inside one nested transaction. -/
def import_database_table (db : Database) (table_name : String) (mode : String)
    (raw : List Nat) : Result ImportResponse :=
  let m := pyLower mode
  if m ∉ (["overwrite", "append"] : List String) then (.error (.http 400 "未知导入模式"), db)
  else match ensure_table_exists db table_name with
  | .error e => (.error e, db)
  | .ok () =>
    match getTable db table_name with
    | none => (.error (.http 404 "表不存在"), db) -- unreachable after the existence check
    | some t =>
      let table_columns := (get_table_columns t).map Column.name
      if raw = [] then (.error (.http 400 "文件为空"), db)
      else match decodeUpload raw with
      | none => (.error (.http 400 "CSV 文件必须为 UTF-8 编码"), db)
      | some decoded =>
        let records := csvParse decoded
        let fieldnames := records.head?.getD []
        let header := fieldnames.map pyStrip
        if header = [] then (.error (.http 400 "CSV 文件缺少表头"), db)
        else if header ≠ table_columns then
          (.error (.http 400 "CSV 表头与数据库表字段不匹配"), db)
        else
          let rows_to_insert := ((records.drop 1).filter (fun r => r ≠ [])).map
            (cleanedRecord table_columns fieldnames)
          match importTransaction t m rows_to_insert with
          | .error e => (.error e, db)
          | .ok t' =>
            (.ok { status := "imported", rows := rows_to_insert.length, mode := m },
             setTable db table_name t')

/-! ### Table export (spec §4.3)

The repository snapshot contains no `exportCsv` endpoint for console tables
(the users-only `export_users` endpoint is unrelated); the byte format is
"left to the implementer". -/

/-- The `""`-doubling a quoted CSV cell applies to its quotes. -/
def dqChars (l : List Char) : List Char :=
  l.foldr (fun c acc => if c = '"' then '"' :: '"' :: acc else c :: acc) []

/-- A CSV cell serialized fully quoted: `"` becomes `""`. -/
def csvQuote (s : String) : List Char :=
  '"' :: (s.toList.foldr (fun c acc => if c = '"' then '"' :: '"' :: acc else c :: acc) ['"'])

/-- One CSV record: quoted cells joined by commas, terminated by `\n`. -/
def csvWriteRecord (cells : List String) : List Char :=
  match cells with
  | [] => ['\n']
  | c :: cs => csvQuote c ++ (cs.map (fun s => ',' :: csvQuote s)).flatten ++ ['\n']

/-- A whole CSV document. -/
def csvWrite (records : List (List String)) : List Char :=
  (records.map csvWriteRecord).flatten

/-- UTF-8 encoding of a code point sequence. -/
def utf8Encode (cs : List Char) : List Nat :=
  cs.foldr (fun c acc =>
    let n := c.toNat
    if n ≤ 0x7F then n :: acc
    else if n ≤ 0x7FF then (0xC0 + n / 0x40) :: (0x80 + n % 0x40) :: acc
    else if n ≤ 0xFFFF then
      (0xE0 + n / 0x1000) :: (0x80 + n / 0x40 % 0x40) :: (0x80 + n % 0x40) :: acc
    else
      (0xF0 + n / 0x40000) :: (0x80 + n / 0x1000 % 0x40) :: (0x80 + n / 0x40 % 0x40) ::
        (0x80 + n % 0x40) :: acc) []

/-- Modelled from the spec: the record layout of `exportCsv(table)` —
"whatever the table declares" as column order: a header of the column names
followed by one record per row, a NULL cell exported as the empty string.
The endpoint itself is absent from the backend sources. -/
def exportRecords (t : Table) : List (List String) :=
  (t.columns.map Column.name) ::
    t.rows.map (fun r => t.columns.map (fun c =>
      match r.lookup c.name with
      | some (some s) => s
      | _ => ""))

/-- Modelled from the spec: `exportCsv(table) -> byte stream`.  The byte
format is left to the implementer; we fix fully-quoted CSV records encoded
as UTF-8 without a BOM. -/
def exportCsv (t : Table) : List Nat :=
  utf8Encode (csvWrite (exportRecords t))

/-- The lossy convention of the import path (spec §4.3): an empty-string
cell and a NULL cell are indistinguishable, both landing as NULL. -/
def normalizeValue (v : Value) : Value :=
  if v = some "" then none else v

/-- A row after the export/import round trip: every empty-string cell
becomes NULL, everything else is unchanged. -/
def normalizeRow (r : Row) : Row :=
  r.map (fun kv => (kv.1, normalizeValue kv.2))

/-! ### Concrete fixtures (small schemas used to evaluate the model) -/

/-- An `id INTEGER PRIMARY KEY NOT NULL` column. -/
def idCol : Column := { name := "id", type := "INTEGER", notnull := true, default_value := none, pk := true }

/-- A nullable `name TEXT` column. -/
def nameCol : Column := { name := "name", type := "TEXT", notnull := false, default_value := none, pk := false }

/-- A `users` table holding the single row `{id: 7, name: "Bob"}`. -/
def usersTable : Table := { columns := [idCol, nameCol], rows := [[("id", some "7"), ("name", some "Bob")]] }

/-- First half of a composite primary key. -/
def aCol : Column := { name := "a", type := "TEXT", notnull := true, default_value := none, pk := true }

/-- Second half of a composite primary key. -/
def bCol : Column := { name := "b", type := "TEXT", notnull := true, default_value := none, pk := true }

/-- An empty table whose primary key spans two columns. -/
def pairTable : Table := { columns := [aCol, bCol], rows := [] }

/-- A two-table demo database. -/
def demoDb : Database := [("pair", pairTable), ("users", usersTable)]

/-- An `email TEXT NOT NULL` column without a default. -/
def emailCol : Column := { name := "email", type := "TEXT", notnull := true, default_value := none, pk := false }

/-- A table whose NOT NULL `email` column holds the empty string. -/
def nnTable : Table := { columns := [idCol, emailCol], rows := [[("id", some "7"), ("email", some "")]] }

/-- A database holding only `nnTable`. -/
def nnDb : Database := [("accounts", nnTable)]

/-! ### Shared lemmas -/

/-- A successful INSERT sequence appends exactly the materialized rows and
keeps the column list. -/
theorem runInserts_ok (rs : List Row) :
    ∀ (t t' : Table), runInserts t rs = .ok t' →
      t'.columns = t.columns ∧ t'.rows = t.rows ++ rs.map (storedRow t.columns) := by
  induction rs with
  | nil =>
    intro t t' h
    simp [runInserts] at h
    simp [← h]
  | cons r rs ih =>
    intro t t' h
    simp only [runInserts] at h
    cases hins : insertRow t r with
    | error e => rw [hins] at h; exact absurd h (by simp)
    | ok t1 =>
      rw [hins] at h
      obtain ⟨hc, hr⟩ := ih t1 t' h
      unfold insertRow at hins
      split at hins
      · exact absurd hins (by simp)
      · cases hins
        constructor
        · simpa using hc
        · simp only [hr]
          simp [List.map_cons, List.append_assoc]

/-- An INSERT sequence stops at the first failing row. -/
theorem runInserts_append_error (good : List Row) (bad : Row) (rest : List Row) :
    ∀ (t tg : Table) (e : ApiError), runInserts t good = .ok tg →
      insertRow tg bad = .error e →
      runInserts t (good ++ bad :: rest) = .error e := by
  induction good with
  | nil =>
    intro t tg e hok hbad
    simp [runInserts] at hok
    subst hok
    simp [runInserts, hbad]
  | cons g gs ih =>
    intro t tg e hok hbad
    simp only [runInserts] at hok ⊢
    cases hins : insertRow t g with
    | error e' => rw [hins] at hok; exact absurd hok (by simp)
    | ok t1 =>
      rw [hins] at hok
      exact ih t1 tg e hok hbad

/-- Sorted insertion preserves membership. -/
theorem mem_insertSorted {a x : String} {l : List String} :
    a ∈ insertSorted x l ↔ a = x ∨ a ∈ l := by
  induction l with
  | nil => simp [insertSorted]
  | cons b bs ih =>
    unfold insertSorted
    split
    · simp
    · simp only [List.mem_cons, ih]
      tauto

/-- Sorting preserves membership. -/
theorem mem_sortNames {a : String} {l : List String} :
    a ∈ sortNames l ↔ a ∈ l := by
  induction l with
  | nil => simp [sortNames]
  | cons b bs ih => simp [sortNames, mem_insertSorted, ih]

/-- Membership in the table listing is membership among the non-internal
names of the database. -/
theorem mem_fetch_table_names {db : Database} {n : String} :
    n ∈ fetch_table_names db ↔ n ∈ db.map Prod.fst ∧ ¬ isInternalName n := by
  unfold fetch_table_names
  rw [mem_sortNames, List.mem_filter]
  simp

/-- After filtering out every entry carrying a name, that name is gone from
the table listing. -/
theorem not_mem_fetch_filter (db : Database) (table_name : String)
    (pred : String × Table → Bool) (hpred : ∀ p, pred p = true → p.1 ≠ table_name) :
    table_name ∉ fetch_table_names (db.filter pred) := by
  intro hmem
  obtain ⟨hmap, _⟩ := mem_fetch_table_names.mp hmem
  obtain ⟨p, hp, hfst⟩ := List.mem_map.mp hmap
  exact hpred p (List.mem_filter.mp hp).2 hfst

/-- Replacing a table's contents does not change the name listing. -/
theorem fetch_setTable {db : Database} {n : String} {t' : Table} :
    fetch_table_names (setTable db n t') = fetch_table_names db := by
  unfold fetch_table_names setTable
  rw [List.map_map]
  congr 1
  congr 1
  apply List.map_congr_left
  intro p _
  show Prod.fst (if p.1 = n then (p.1, t') else p) = p.1
  split <;> rfl

/-- Replacing the named table's contents makes lookups of that name return
the new contents. -/
theorem getTable_setTable (db : Database) (n : String) (t t' : Table)
    (hget : getTable db n = some t) : getTable (setTable db n t') n = some t' := by
  induction db with
  | nil => simp [getTable] at hget
  | cons hd tl ih =>
    obtain ⟨m, tt⟩ := hd
    unfold getTable at hget
    unfold getTable setTable
    simp only [List.map_cons]
    by_cases hc : m = n
    · subst hc
      rw [if_pos rfl]
      simp [List.lookup]
    · rw [if_neg hc]
      have hne : (n == m) = false := beq_eq_false_iff_ne.mpr (fun h => hc h.symm)
      simp only [List.lookup, hne] at hget ⊢
      exact ih hget

/-- The name of a dropped table is gone from the listing. -/
theorem not_mem_fetch_erase (db : Database) (table_name : String) :
    table_name ∉ fetch_table_names (db.filter (fun p => p.1 ≠ table_name)) :=
  not_mem_fetch_filter db table_name (fun p => decide (p.1 ≠ table_name))
    (fun p hp => by simpa using hp)

/-! ### C1 -/

/-- **C1** (code bug): the access-gate dependency can never yield the
Forbidden (403) response the spec demands.  `config.py` declares the
server-held secret as `admin_db_header_secret`, but the gate reads
`settings.database_admin_password`, an attribute no `Settings` instance has;
for every settings instance and every supplied `X-Database-Password` header —
matching or not — the dependency raises `AttributeError` (surfaced as a 500)
before any comparison, so a mismatching header is never answered with 403. -/
theorem c1_gate_always_attribute_error (s : Settings) (password : String) :
    require_database_password_header s password =
      .error (.attributeError "database_admin_password") := by
  rfl

/-- Witness for C1's theorem at a concrete settings instance and header. -/
theorem c1_gate_always_attribute_error_witness :
    require_database_password_header
      { env := "production", project_name := "TechDay Platform", jwt_secret := "k",
        jwt_algorithm := "HS256", access_token_expire_minutes := 1440,
        admin_email := "a@b.c", admin_password := "pw", database_url := "sqlite://",
        posts_dir := "/data/posts", uploads_dir := "/data/uploads",
        admin_db_header_secret := "s3cret" } "s3cret" =
      .error (.attributeError "database_admin_password") :=
  c1_gate_always_attribute_error _ "s3cret"

/-! ### C10 -/

/-- **C10**: the import endpoint lower-cases the supplied mode before
checking it — `"OVERWRITE"` behaves exactly as `"overwrite"` — and any mode
whose lower-casing is neither `"overwrite"` nor `"append"` is rejected with
a 400 before the table is resolved (the same 400 answers even a nonexistent
table) and before the file is read (the bytes are irrelevant). -/
theorem c10_mode_lowercased_and_checked_first (db : Database) (table_name : String)
    (mode : String) (raw : List Nat) :
    (import_database_table db table_name "OVERWRITE" raw =
       import_database_table db table_name "overwrite" raw) ∧
    (import_database_table db table_name "Append" raw =
       import_database_table db table_name "append" raw) ∧
    (pyLower mode ∉ (["overwrite", "append"] : List String) →
       import_database_table db table_name mode raw =
         (.error (.http 400 "未知导入模式"), db)) := by
  refine ⟨rfl, rfl, fun h => ?_⟩
  unfold import_database_table
  simp only [if_pos h]

/-- Witness for C10 at a rejected mode, on a database where the table does
not even exist and with undecodable bytes, showing the mode error wins. -/
theorem c10_mode_lowercased_and_checked_first_witness :
    import_database_table [] "missing" "Merge" [0xFF] =
      (.error (.http 400 "未知导入模式"), []) :=
  (c10_mode_lowercased_and_checked_first [] "missing" "Merge" [0xFF]).2.2 (by decide)

/-! ### C8 -/

/-- **C8**: every named-table console operation checks the name against the
current `_fetch_table_names` listing and answers 404 when the table is
absent at call time (for the import endpoint this holds once the mode string
is one of the accepted modes, which are validated first); and dropping an
existing table succeeds once while an immediately repeated drop of the same
name answers 404. -/
theorem c8_existence_checked_first (db : Database) (table_name pk_value mode : String)
    (data : Row) (raw : List Nat) (limit : Int) :
    (table_name ∉ fetch_table_names db →
       get_database_table db table_name limit = (.error (.http 404 "表不存在"), db) ∧
       create_database_row db table_name data = (.error (.http 404 "表不存在"), db) ∧
       update_database_row db table_name pk_value data = (.error (.http 404 "表不存在"), db) ∧
       delete_database_row db table_name pk_value = (.error (.http 404 "表不存在"), db) ∧
       delete_database_table db table_name = (.error (.http 404 "表不存在"), db) ∧
       (pyLower mode ∈ (["overwrite", "append"] : List String) →
          import_database_table db table_name mode raw = (.error (.http 404 "表不存在"), db))) ∧
    (table_name ∈ fetch_table_names db →
       ∃ db', delete_database_table db table_name = (.ok "deleted", db') ∧
         delete_database_table db' table_name = (.error (.http 404 "表不存在"), db')) := by
  constructor
  · intro h
    refine ⟨?_, ?_, ?_, ?_, ?_, ?_⟩
    · simp [get_database_table, ensure_table_exists, h]
    · simp [create_database_row, ensure_table_exists, h]
    · simp [update_database_row, ensure_table_exists, h]
    · simp [delete_database_row, ensure_table_exists, h]
    · simp [delete_database_table, ensure_table_exists, h]
    · intro hmode
      simp [import_database_table, ensure_table_exists, h, hmode]
  · intro h
    simp only [delete_database_table, ensure_table_exists, if_pos h]
    refine ⟨_, rfl, ?_⟩
    simp only [delete_database_table, ensure_table_exists,
      if_neg (not_mem_fetch_erase db table_name)]

/-- Witness for C8: a two-table database; `"orders"` is dropped once and the
second drop answers 404, while every operation on the absent `"nope"`
answers 404. -/
theorem c8_existence_checked_first_witness :
    (get_database_table [("orders", ⟨[], []⟩), ("users", ⟨[], []⟩)] "nope" 5 =
       (.error (.http 404 "表不存在"), [("orders", ⟨[], []⟩), ("users", ⟨[], []⟩)])) ∧
    (∃ db', delete_database_table [("orders", ⟨[], []⟩), ("users", ⟨[], []⟩)] "orders" =
        (.ok "deleted", db') ∧
      delete_database_table db' "orders" = (.error (.http 404 "表不存在"), db')) := by
  refine ⟨((c8_existence_checked_first [("orders", ⟨[], []⟩), ("users", ⟨[], []⟩)]
      "nope" "1" "append" [] [] 5).1 (by decide)).1,
    (c8_existence_checked_first [("orders", ⟨[], []⟩), ("users", ⟨[], []⟩)]
      "orders" "1" "append" [] [] 5).2 (by decide)⟩

/-! ### C4 -/

/-- **C4**: for the row-write endpoints on an existing table, a table with
zero or several primary-key columns makes update and delete fail with a 400
(update and delete are the operations requiring the single key), an empty
fields payload makes update and create fail with a 400, and a payload key
outside the table's current column set makes update and create fail with a
400 — in every case the database state is returned unchanged, no statement
having touched the table. -/
theorem c4_write_validation (db : Database) (table_name pk_value : String) (t : Table)
    (data : Row)
    (hmem : table_name ∈ fetch_table_names db)
    (hget : getTable db table_name = some t) :
    ((t.columns.filter (fun c => c.pk)).length ≠ 1 →
       (∃ d, update_database_row db table_name pk_value data = (.error (.http 400 d), db)) ∧
       (∃ d, delete_database_row db table_name pk_value = (.error (.http 400 d), db))) ∧
    (data = [] →
       (∃ d, update_database_row db table_name pk_value data = (.error (.http 400 d), db)) ∧
       (∃ d, create_database_row db table_name data = (.error (.http 400 d), db))) ∧
    ((∃ f ∈ data.map Prod.fst, f ∉ t.columns.map Column.name) →
       (∃ d, update_database_row db table_name pk_value data = (.error (.http 400 d), db)) ∧
       (∃ d, create_database_row db table_name data = (.error (.http 400 d), db))) := by
  refine ⟨fun hpk => ⟨?_, ?_⟩, fun hdata => ⟨?_, ?_⟩, fun hinv => ⟨?_, ?_⟩⟩
  · -- update, no single primary key
    cases hfilt : t.columns.filter (fun c => c.pk) with
    | nil =>
      exact ⟨"该表没有可识别的单一主键，暂不支持编辑",
        by simp [update_database_row, ensure_table_exists, get_table_columns, hmem, hget, hfilt]⟩
    | cons p ps =>
      cases ps with
      | nil => exact absurd (by simp [hfilt]) hpk
      | cons q qs =>
        exact ⟨"该表没有可识别的单一主键，暂不支持编辑",
          by simp [update_database_row, ensure_table_exists, get_table_columns, hmem, hget, hfilt]⟩
  · -- delete, no single primary key
    cases hfilt : t.columns.filter (fun c => c.pk) with
    | nil =>
      exact ⟨"该表没有可识别的单一主键，暂不支持删除",
        by simp [delete_database_row, ensure_table_exists, get_table_columns, hmem, hget, hfilt]⟩
    | cons p ps =>
      cases ps with
      | nil => exact absurd (by simp [hfilt]) hpk
      | cons q qs =>
        exact ⟨"该表没有可识别的单一主键，暂不支持删除",
          by simp [delete_database_row, ensure_table_exists, get_table_columns, hmem, hget, hfilt]⟩
  · -- update, empty payload
    cases hfilt : t.columns.filter (fun c => c.pk) with
    | nil =>
      exact ⟨"该表没有可识别的单一主键，暂不支持编辑",
        by simp [update_database_row, ensure_table_exists, get_table_columns, hmem, hget, hfilt]⟩
    | cons p ps =>
      cases ps with
      | nil =>
        exact ⟨"缺少更新内容",
          by simp [update_database_row, ensure_table_exists, get_table_columns, hmem, hget, hfilt, hdata]⟩
      | cons q qs =>
        exact ⟨"该表没有可识别的单一主键，暂不支持编辑",
          by simp [update_database_row, ensure_table_exists, get_table_columns, hmem, hget, hfilt]⟩
  · -- create, empty payload
    exact ⟨"缺少创建内容",
      by simp [create_database_row, ensure_table_exists, get_table_columns, hmem, hget, hdata]⟩
  · -- update, unknown field
    obtain ⟨f, hf, hfnot⟩ := hinv
    have hdata : data ≠ [] := by
      intro hnil; rw [hnil] at hf; simp at hf
    have hinvne : (data.map Prod.fst).filter
        (fun f => f ∉ t.columns.map Column.name) ≠ [] :=
      List.ne_nil_of_mem (List.mem_filter.mpr ⟨hf, by simpa using hfnot⟩)
    cases hfilt : t.columns.filter (fun c => c.pk) with
    | nil =>
      exact ⟨"该表没有可识别的单一主键，暂不支持编辑",
        by simp [update_database_row, ensure_table_exists, get_table_columns, hmem, hget, hfilt]⟩
    | cons p ps =>
      cases ps with
      | nil =>
        refine ⟨"未知字段", ?_⟩
        simp only [update_database_row, ensure_table_exists, if_pos hmem, hget,
          get_table_columns, hfilt, if_neg hdata]
        rw [if_pos (by simpa using hinvne)]
      | cons q qs =>
        exact ⟨"该表没有可识别的单一主键，暂不支持编辑",
          by simp [update_database_row, ensure_table_exists, get_table_columns, hmem, hget, hfilt]⟩
  · -- create, unknown field
    obtain ⟨f, hf, hfnot⟩ := hinv
    have hdata : data ≠ [] := by
      intro hnil; rw [hnil] at hf; simp at hf
    have hinvne : (data.map Prod.fst).filter
        (fun f => f ∉ t.columns.map Column.name) ≠ [] :=
      List.ne_nil_of_mem (List.mem_filter.mpr ⟨hf, by simpa using hfnot⟩)
    refine ⟨"未知字段", ?_⟩
    simp only [create_database_row, ensure_table_exists, if_pos hmem, hget,
      get_table_columns, if_neg hdata]
    rw [if_pos (by simpa using hinvne)]

/-- Witness for C4: on the demo database, updating a row of the two-column-
primary-key table answers 400, creating with an empty payload answers 400,
and updating `users` with an unknown field answers 400, each leaving the
database unchanged. -/
theorem c4_write_validation_witness :
    (∃ d, update_database_row demoDb "pair" "1" [("a", some "1")] =
       (.error (.http 400 d), demoDb)) ∧
    (∃ d, create_database_row demoDb "users" [] = (.error (.http 400 d), demoDb)) ∧
    (∃ d, update_database_row demoDb "users" "7" [("nope", some "x")] =
       (.error (.http 400 d), demoDb)) :=
  ⟨((c4_write_validation demoDb "pair" "1" pairTable [("a", some "1")]
      (by decide) (by decide)).1 (by decide)).1,
   ((c4_write_validation demoDb "users" "7" usersTable []
      (by decide) (by decide)).2.1 rfl).2,
   ((c4_write_validation demoDb "users" "7" usersTable [("nope", some "x")]
      (by decide) (by decide)).2.2 ⟨"nope", by decide, by decide⟩).1⟩

/-! ### C7 -/

/-- Counterexample for C7: on a table whose primary key spans the two
columns `a` and `b` (an ambiguous case), `get_database_table` reports
`primary_key = some "a"` — the first primary-key column — not the `null` the
claim demands for ambiguous tables. -/
theorem c7_counterexample :
    (pairTable.columns.filter (fun c => c.pk)).length = 2 ∧
    (get_database_table [("pair", pairTable)] "pair" 5).1 =
      .ok { columns := pairTable.columns, rows := [], primary_key := some "a" } := by
  constructor
  · decide
  · rfl

/-- **C7** (amended): `get_database_table` coerces a non-positive limit to
the default 200 (so `limit = 0` and `limit = -5` behave as `limit = 200`),
returns at most that many rows together with the table's resolved column
list, and reports as primary key the name of the *first* primary-key column
in column order — `null` exactly when the table has no primary-key column
(for a table with several primary-key columns it reports the first one's
name, not `null`). -/
theorem c7_fetch_rows (db : Database) (table_name : String) (limit : Int) (t : Table)
    (hmem : table_name ∈ fetch_table_names db)
    (hget : getTable db table_name = some t) :
    (limit ≤ 0 → get_database_table db table_name limit =
       get_database_table db table_name 200) ∧
    ∃ resp, get_database_table db table_name limit = (.ok resp, db) ∧
      resp.columns = t.columns ∧
      resp.rows = t.rows.take (if limit ≤ 0 then (200 : Int) else limit).toNat ∧
      resp.rows.length ≤ (if limit ≤ 0 then (200 : Int) else limit).toNat ∧
      resp.primary_key = (t.columns.find? (fun c => c.pk)).map Column.name ∧
      (resp.primary_key = none ↔ ∀ c ∈ t.columns, ¬ c.pk) := by
  constructor
  · intro h
    unfold get_database_table
    rw [if_pos h, if_neg (by norm_num : ¬ (200 : Int) ≤ 0)]
  · simp only [get_database_table, ensure_table_exists, if_pos hmem, hget,
      get_table_columns]
    refine ⟨_, rfl, rfl, rfl, ?_, rfl, ?_⟩
    · simp [List.length_take]
    · simp [Option.map_eq_none', List.find?_eq_none]

/-- Witness for C7's amended claim on the `users` table at `limit = -5`. -/
theorem c7_fetch_rows_witness :
    (get_database_table demoDb "users" (-5) = get_database_table demoDb "users" 200) ∧
    ∃ resp, get_database_table demoDb "users" (-5) = (.ok resp, demoDb) ∧
      resp.columns = usersTable.columns ∧
      resp.rows = usersTable.rows.take ((200 : Int)).toNat ∧
      resp.primary_key = some "id" :=
  have h := c7_fetch_rows demoDb "users" (-5) usersTable (by decide) (by decide)
  have h2 := h.2
  ⟨h.1 (by norm_num), by
    obtain ⟨resp, heq, hc, hr, _, hpk, _⟩ := h2
    exact ⟨resp, heq, hc, by simpa using hr, by rw [hpk]; decide⟩⟩

/-! ### C9 -/

/-- **C9**: on a `users` table whose single primary-key column is `id`,
an update naming a primary-key value matched by no row answers 404 with the
database unchanged, while with the row `{id: 7, name: "Bob"}` present the
call `updateRow("users", "7", {"name": "Alice"})` succeeds and a subsequent
fetch of the table shows the updated row `{id: 7, name: "Alice"}`. -/
theorem c9_update_row_scenarios (db : Database) (pk_value : String) (t : Table)
    (data : Row) (p : Column)
    (hmem : "users" ∈ fetch_table_names db) (hget : getTable db "users" = some t)
    (hpk : t.columns.filter (fun c => c.pk) = [p]) (hpname : p.name = "id") :
    ((∀ r ∈ t.rows, r.lookup "id" ≠ some (some pk_value)) → data ≠ [] →
       (data.map Prod.fst).filter (fun f => f ∉ t.columns.map Column.name) = [] →
       update_database_row db "users" pk_value data =
         (.error (.http 404 "记录不存在或未修改"), db)) ∧
    ([("id", some "7"), ("name", some "Bob")] ∈ t.rows →
       "name" ∈ t.columns.map Column.name →
       t.rows.length ≤ 200 →
       ∃ t', update_database_row db "users" "7" [("name", some "Alice")] =
           (.ok "updated", setTable db "users" t') ∧
         [("id", some "7"), ("name", some "Alice")] ∈ t'.rows ∧
         ∃ resp, (get_database_table (setTable db "users" t') "users" 200).1 = .ok resp ∧
           [("id", some "7"), ("name", some "Alice")] ∈ resp.rows) := by
  constructor
  · intro hnone hdata hvalid
    have hzero : (updateWhere t p.name pk_value data).1 = 0 := by
      rw [hpname]
      simp only [updateWhere, List.countP_eq_zero]
      intro r hr
      simpa using hnone r hr
    simp only [update_database_row, ensure_table_exists, if_pos hmem, hget,
      get_table_columns, hpk, if_neg hdata]
    rw [if_neg (by simpa using hvalid), if_pos hzero]
  · intro hrow hname hlen
    have hdata : ([("name", some "Alice")] : Row) ≠ [] := by simp
    have hvalid : (([("name", some "Alice")] : Row).map Prod.fst).filter
        (fun f => f ∉ t.columns.map Column.name) = [] := by
      simp only [List.map_cons, List.map_nil, List.filter_eq_nil_iff]
      intro a ha
      simp only [List.mem_singleton] at ha
      subst ha
      simpa using hname
    have hhit : ([("id", some "7"), ("name", some "Bob")] : Row).lookup "id" =
        some (some "7") := by decide
    have hcount : ¬ (updateWhere t "id" "7" [("name", some "Alice")]).1 = 0 := by
      simp only [updateWhere, List.countP_eq_zero]
      intro hall
      exact absurd hhit (by simpa using hall _ hrow)
    refine ⟨(updateWhere t "id" "7" [("name", some "Alice")]).2, ?_, ?_, ?_⟩
    · simp only [update_database_row, ensure_table_exists, if_pos hmem, hget,
        get_table_columns, hpk, if_neg hdata]
      rw [if_neg (by simpa using hvalid), hpname, if_neg hcount]
    · simp only [updateWhere]
      refine List.mem_map.mpr ⟨_, hrow, ?_⟩
      rw [if_pos (by simp [hhit])]
      decide
    · have hmem' : "users" ∈ fetch_table_names
          (setTable db "users" (updateWhere t "id" "7" [("name", some "Alice")]).2) := by
        rwa [fetch_setTable]
      have hget' := getTable_setTable db "users" t
        (updateWhere t "id" "7" [("name", some "Alice")]).2 hget
      simp only [get_database_table, ensure_table_exists, if_pos hmem', hget',
        get_table_columns]
      refine ⟨_, rfl, ?_⟩
      have hlen' : (updateWhere t "id" "7" [("name", some "Alice")]).2.rows.length ≤
          (200 : Int).toNat := by
        simpa [updateWhere] using hlen
      simp only [show (if (200 : Int) ≤ 0 then (200 : Int) else 200) = 200 from by norm_num]
      rw [List.take_of_length_le hlen']
      simp only [updateWhere]
      refine List.mem_map.mpr ⟨_, hrow, ?_⟩
      rw [if_pos (by simp [hhit])]
      decide

/-- Witness for C9 on the demo database: `id = 3` matches nothing and is
answered 404; `id = 7` is updated to Alice and shows up in the fetch. -/
theorem c9_update_row_scenarios_witness :
    (update_database_row demoDb "users" "3" [("name", some "Alice")] =
       (.error (.http 404 "记录不存在或未修改"), demoDb)) ∧
    ∃ t', update_database_row demoDb "users" "7" [("name", some "Alice")] =
        (.ok "updated", setTable demoDb "users" t') ∧
      [("id", some "7"), ("name", some "Alice")] ∈ t'.rows :=
  have h := c9_update_row_scenarios demoDb "3" usersTable [("name", some "Alice")] idCol
    (by decide) (by decide) (by decide) (by decide)
  have h7 := c9_update_row_scenarios demoDb "7" usersTable [("name", some "Alice")] idCol
    (by decide) (by decide) (by decide) (by decide)
  ⟨h.1 (by decide) (by decide) (by decide), by
    obtain ⟨t', heq, hmem, _⟩ := h7.2 (by decide) (by decide) (by decide)
    exact ⟨t', heq, hmem⟩⟩

/-! ### C6 -/

/-- **C6**: on an existing table and an accepted mode, the import answers a
400 when the uploaded file is empty; a 400 when the bytes do not decode as
UTF-8, while a leading byte-order mark is stripped rather than rejected
(prepending a BOM to decodable bytes still decodes, without the mark); a 400
when the parsed header is absent; and a 400 when the stripped header differs
from the table's column list (in particular whenever it misses a column),
regardless of the data rows — in every failure the database is unchanged. -/
theorem c6_import_validation (db : Database) (table_name : String) (t : Table)
    (mode : String) (raw : List Nat) (cs : List Char)
    (hmode : pyLower mode ∈ (["overwrite", "append"] : List String))
    (hmem : table_name ∈ fetch_table_names db)
    (hget : getTable db table_name = some t) :
    (raw = [] →
       import_database_table db table_name mode raw =
         (.error (.http 400 "文件为空"), db)) ∧
    (raw ≠ [] → decodeUpload raw = none →
       import_database_table db table_name mode raw =
         (.error (.http 400 "CSV 文件必须为 UTF-8 编码"), db)) ∧
    (utf8Decode raw = some cs → decodeUpload (bomBytes ++ raw) = some cs) ∧
    (raw ≠ [] → decodeUpload raw = some cs →
       (((csvParse cs).head?.getD []).map pyStrip = [] →
          import_database_table db table_name mode raw =
            (.error (.http 400 "CSV 文件缺少表头"), db)) ∧
       (((csvParse cs).head?.getD []).map pyStrip ≠ [] →
          ((csvParse cs).head?.getD []).map pyStrip ≠
            (get_table_columns t).map Column.name →
          import_database_table db table_name mode raw =
            (.error (.http 400 "CSV 表头与数据库表字段不匹配"), db))) := by
  have hmode' : ¬ pyLower mode ∉ (["overwrite", "append"] : List String) := fun h => h hmode
  refine ⟨?_, ?_, ?_, ?_⟩
  · intro hraw
    subst hraw
    simp only [import_database_table, if_neg hmode', ensure_table_exists, if_pos hmem,
      hget, get_table_columns]
    rfl
  · intro hraw hdec
    simp only [import_database_table, if_neg hmode', ensure_table_exists, if_pos hmem,
      hget, get_table_columns, if_neg hraw, hdec]
  · intro hdec
    show decodeUpload (0xEF :: 0xBB :: 0xBF :: raw) = some cs
    simp only [decodeUpload, utf8SigDecode, and_self, if_true, hdec]
  · intro hraw hdec
    constructor
    · intro hhdr
      simp only [import_database_table, if_neg hmode', ensure_table_exists, if_pos hmem,
        hget, get_table_columns, if_neg hraw, hdec, hhdr]
      rfl
    · intro hne hnecols
      simp only [import_database_table, if_neg hmode', ensure_table_exists, if_pos hmem,
        hget, get_table_columns, if_neg hraw, hdec]
      rw [if_neg hne, if_pos (by simpa using hnecols)]

/-- Witness for C6 on the demo `users` table: the empty upload, an invalid
UTF-8 byte, a BOM-prefixed decodable upload, a header-less upload, and the
header `id` against columns `[id, name]`. -/
theorem c6_import_validation_witness :
    (import_database_table demoDb "users" "append" [] =
       (.error (.http 400 "文件为空"), demoDb)) ∧
    (import_database_table demoDb "users" "append" [0xFF] =
       (.error (.http 400 "CSV 文件必须为 UTF-8 编码"), demoDb)) ∧
    (decodeUpload (bomBytes ++ [0x69, 0x64]) = some ['i', 'd']) ∧
    (import_database_table demoDb "users" "append" [0x0A] =
       (.error (.http 400 "CSV 文件缺少表头"), demoDb)) ∧
    (import_database_table demoDb "users" "append" [0x69, 0x64, 0x0A, 0x31, 0x0A] =
       (.error (.http 400 "CSV 表头与数据库表字段不匹配"), demoDb)) :=
  ⟨(c6_import_validation demoDb "users" usersTable "append" [] []
      (by decide) (by decide) (by decide)).1 rfl,
   (c6_import_validation demoDb "users" usersTable "append" [0xFF] []
      (by decide) (by decide) (by decide)).2.1 (by decide) (by decide),
   (c6_import_validation demoDb "users" usersTable "append" [0x69, 0x64] ['i', 'd']
      (by decide) (by decide) (by decide)).2.2.1 (by decide),
   ((c6_import_validation demoDb "users" usersTable "append" [0x0A] ['\n']
      (by decide) (by decide) (by decide)).2.2.2 (by decide) (by decide)).1 (by decide),
   ((c6_import_validation demoDb "users" usersTable "append"
      [0x69, 0x64, 0x0A, 0x31, 0x0A] ['i', 'd', '\n', '1', '\n']
      (by decide) (by decide) (by decide)).2.2.2 (by decide) (by decide)).2
      (by decide) (by decide)⟩

/-! ### C3 -/

/-- A fully validated overwrite import whose INSERT sequence succeeds
commits the nested transaction's table. -/
theorem import_overwrite_ok (db : Database) (table_name : String) (t : Table)
    (raw : List Nat) (cs : List Char) (rows : List Row) (t1 : Table)
    (hmem : table_name ∈ fetch_table_names db)
    (hget : getTable db table_name = some t)
    (hraw : raw ≠ [])
    (hdec : decodeUpload raw = some cs)
    (hhdr_ne : ((csvParse cs).head?.getD []).map pyStrip ≠ [])
    (hhdr : ((csvParse cs).head?.getD []).map pyStrip = t.columns.map Column.name)
    (hrows : rows = (((csvParse cs).drop 1).filter (fun r => r ≠ [])).map
       (cleanedRecord (t.columns.map Column.name) ((csvParse cs).head?.getD [])))
    (hins : runInserts { t with rows := [] } rows = .ok t1) :
    import_database_table db table_name "overwrite" raw =
      (.ok { status := "imported", rows := rows.length, mode := "overwrite" },
       setTable db table_name t1) := by
  simp only [import_database_table, if_neg (by decide :
    ¬ pyLower "overwrite" ∉ (["overwrite", "append"] : List String)),
    ensure_table_exists, if_pos hmem, hget, get_table_columns, if_neg hraw, hdec]
  rw [if_neg hhdr_ne, if_neg (by simp [hhdr]), ← hrows]
  have htr : importTransaction t (pyLower "overwrite") rows = .ok t1 := by
    unfold importTransaction
    rw [if_pos (by decide : pyLower "overwrite" = "overwrite")]
    exact hins
  rw [htr]
  rfl

/-- A fully validated append import whose INSERT sequence succeeds commits
the nested transaction's table. -/
theorem import_append_ok (db : Database) (table_name : String) (t : Table)
    (raw : List Nat) (cs : List Char) (rows : List Row) (t2 : Table)
    (hmem : table_name ∈ fetch_table_names db)
    (hget : getTable db table_name = some t)
    (hraw : raw ≠ [])
    (hdec : decodeUpload raw = some cs)
    (hhdr_ne : ((csvParse cs).head?.getD []).map pyStrip ≠ [])
    (hhdr : ((csvParse cs).head?.getD []).map pyStrip = t.columns.map Column.name)
    (hrows : rows = (((csvParse cs).drop 1).filter (fun r => r ≠ [])).map
       (cleanedRecord (t.columns.map Column.name) ((csvParse cs).head?.getD [])))
    (hins : runInserts t rows = .ok t2) :
    import_database_table db table_name "append" raw =
      (.ok { status := "imported", rows := rows.length, mode := "append" },
       setTable db table_name t2) := by
  simp only [import_database_table, if_neg (by decide :
    ¬ pyLower "append" ∉ (["overwrite", "append"] : List String)),
    ensure_table_exists, if_pos hmem, hget, get_table_columns, if_neg hraw, hdec]
  rw [if_neg hhdr_ne, if_neg (by simp [hhdr]), ← hrows]
  have htr : importTransaction t (pyLower "append") rows = .ok t2 := by
    unfold importTransaction
    rw [if_neg (by decide : ¬ pyLower "append" = "overwrite")]
    exact hins
  rw [htr]
  rfl

/-- **C3**: for a CSV upload that passes all validation, `"overwrite"` mode
first deletes every pre-existing row and then inserts the CSV's rows, so the
table afterwards holds exactly the CSV's data rows (as materialized by the
INSERTs); `"append"` mode leaves the pre-existing rows in place and adds the
CSV's rows after them; and the success response reports the inserted row
count and the mode. -/
theorem c3_import_overwrite_append (db : Database) (table_name : String) (t : Table)
    (raw : List Nat) (cs : List Char) (rows : List Row) (t1 t2 : Table)
    (hmem : table_name ∈ fetch_table_names db)
    (hget : getTable db table_name = some t)
    (hraw : raw ≠ [])
    (hdec : decodeUpload raw = some cs)
    (hhdr_ne : ((csvParse cs).head?.getD []).map pyStrip ≠ [])
    (hhdr : ((csvParse cs).head?.getD []).map pyStrip = t.columns.map Column.name)
    (hrows : rows = (((csvParse cs).drop 1).filter (fun r => r ≠ [])).map
       (cleanedRecord (t.columns.map Column.name) ((csvParse cs).head?.getD []))) :
    (runInserts { t with rows := [] } rows = .ok t1 →
       import_database_table db table_name "overwrite" raw =
         (.ok { status := "imported", rows := rows.length, mode := "overwrite" },
          setTable db table_name t1) ∧
       t1.rows = rows.map (storedRow t.columns)) ∧
    (runInserts t rows = .ok t2 →
       import_database_table db table_name "append" raw =
         (.ok { status := "imported", rows := rows.length, mode := "append" },
          setTable db table_name t2) ∧
       t2.rows = t.rows ++ rows.map (storedRow t.columns)) := by
  constructor
  · intro hins
    refine ⟨import_overwrite_ok db table_name t raw cs rows t1
      hmem hget hraw hdec hhdr_ne hhdr hrows hins, ?_⟩
    have h := (runInserts_ok rows _ t1 hins).2
    simpa using h
  · intro hins
    exact ⟨import_append_ok db table_name t raw cs rows t2
      hmem hget hraw hdec hhdr_ne hhdr hrows hins,
      (runInserts_ok rows _ t2 hins).2⟩

/-- Witness for C3: importing `id,name\n9,Dan\n` into the demo `users`
table replaces Bob's row in overwrite mode and appends Dan's row in append
mode, reporting one inserted row and the mode. -/
theorem c3_import_overwrite_append_witness :
    (import_database_table demoDb "users" "overwrite"
        ("id,name\n9,Dan\n".toList.map Char.toNat) =
      (.ok { status := "imported", rows := 1, mode := "overwrite" },
       setTable demoDb "users"
         { columns := usersTable.columns, rows := [[("id", some "9"), ("name", some "Dan")]] })) ∧
    (import_database_table demoDb "users" "append"
        ("id,name\n9,Dan\n".toList.map Char.toNat) =
      (.ok { status := "imported", rows := 1, mode := "append" },
       setTable demoDb "users"
         { columns := usersTable.columns,
           rows := [[("id", some "7"), ("name", some "Bob")],
                    [("id", some "9"), ("name", some "Dan")]] })) :=
  have h := c3_import_overwrite_append demoDb "users" usersTable
    ("id,name\n9,Dan\n".toList.map Char.toNat) "id,name\n9,Dan\n".toList
    [[("id", some "9"), ("name", some "Dan")]]
    { columns := usersTable.columns, rows := [[("id", some "9"), ("name", some "Dan")]] }
    { columns := usersTable.columns,
      rows := [[("id", some "7"), ("name", some "Bob")], [("id", some "9"), ("name", some "Dan")]] }
    (by decide) (by decide) (by decide) (by decide) (by decide) (by decide) (by decide)
  ⟨(h.1 (by rfl)).1, (h.2 (by rfl)).1⟩

/-! ### C2 -/

/-- **C2**: an overwrite import whose row list has a prefix of rows that
insert successfully followed by a row whose INSERT fails (a constraint
violation) answers with the propagated failure and the returned database is
exactly the pre-import one: the delete-all and the prior inserts are rolled
back with the savepoint, leaving no partial delete or partial insert. -/
theorem c2_import_atomic (db : Database) (table_name : String) (t : Table)
    (raw : List Nat) (cs : List Char) (rows good rest : List Row) (bad : Row)
    (tg : Table) (e : ApiError)
    (hmem : table_name ∈ fetch_table_names db)
    (hget : getTable db table_name = some t)
    (hraw : raw ≠ [])
    (hdec : decodeUpload raw = some cs)
    (hhdr_ne : ((csvParse cs).head?.getD []).map pyStrip ≠ [])
    (hhdr : ((csvParse cs).head?.getD []).map pyStrip = t.columns.map Column.name)
    (hrows : rows = (((csvParse cs).drop 1).filter (fun r => r ≠ [])).map
       (cleanedRecord (t.columns.map Column.name) ((csvParse cs).head?.getD [])))
    (hsplit : rows = good ++ bad :: rest)
    (hgood : runInserts { t with rows := [] } good = .ok tg)
    (hbad : insertRow tg bad = .error e) :
    import_database_table db table_name "overwrite" raw = (.error e, db) := by
  simp only [import_database_table, if_neg (by decide :
    ¬ pyLower "overwrite" ∉ (["overwrite", "append"] : List String)),
    ensure_table_exists, if_pos hmem, hget, get_table_columns, if_neg hraw, hdec]
  rw [if_neg hhdr_ne, if_neg (by simp [hhdr]), ← hrows]
  have htr : importTransaction t (pyLower "overwrite") rows = .error e := by
    unfold importTransaction
    rw [if_pos (by decide : pyLower "overwrite" = "overwrite"), hsplit]
    exact runInserts_append_error good bad rest _ tg e hgood hbad
  rw [htr]

/-- Witness for C2: importing `id,name\n1,A\n1,B\n` (a duplicated primary
key) into the demo `users` table in overwrite mode fails on the second
INSERT and the returned database still holds Bob's original row. -/
theorem c2_import_atomic_witness :
    import_database_table demoDb "users" "overwrite"
        ("id,name\n1,A\n1,B\n".toList.map Char.toNat) =
      (.error (.dbError "constraint violation"), demoDb) :=
  c2_import_atomic demoDb "users" usersTable
    ("id,name\n1,A\n1,B\n".toList.map Char.toNat) "id,name\n1,A\n1,B\n".toList
    [[("id", some "1"), ("name", some "A")], [("id", some "1"), ("name", some "B")]]
    [[("id", some "1"), ("name", some "A")]] [] [("id", some "1"), ("name", some "B")]
    { columns := usersTable.columns, rows := [[("id", some "1"), ("name", some "A")]] }
    (.dbError "constraint violation")
    (by decide) (by decide) (by decide) (by decide) (by decide) (by decide) (by decide)
    (by decide) (by rfl) (by rfl)

/-! ### C5: UTF-8 encode/decode round trip -/

/-- One-byte sequences decode to their code point. -/
theorem utf8Decode_one (b : Nat) (rest : List Nat) (h : b ≤ 0x7F) :
    utf8Decode (b :: rest) = utf8Cons b (utf8Decode rest) := by
  simp only [utf8Decode]
  rw [utf8DecodeAux.eq_2, if_pos rfl, if_pos h]

/-- Two-byte sequences decode to their code point. -/
theorem utf8Decode_two (b b2 : Nat) (rest : List Nat)
    (h1 : 0xC2 ≤ b) (h2 : b ≤ 0xDF) (hc : 0x80 ≤ b2 ∧ b2 ≤ 0xBF) :
    utf8Decode (b :: b2 :: rest) =
      utf8Cons ((b - 0xC0) * 0x40 + (b2 - 0x80)) (utf8Decode rest) := by
  simp only [utf8Decode]
  rw [utf8DecodeAux.eq_2, if_pos rfl, if_neg (by omega), if_neg (by omega), if_pos h2]
  rw [utf8DecodeAux.eq_2, if_neg (by omega : ¬ (1 : Nat) = 0),
    if_pos (by simp only [isCont, Bool.and_eq_true, decide_eq_true_eq]; omega :
      isCont b2 = true),
    if_pos rfl,
    if_neg (by simp only [Bool.or_eq_true, Bool.and_eq_true, decide_eq_true_eq]; omega)]

/-- Three-byte sequences outside the overlong and surrogate ranges decode
to their code point. -/
theorem utf8Decode_three (b b2 b3 : Nat) (rest : List Nat)
    (h1 : 0xE0 ≤ b) (h2 : b ≤ 0xEF) (hc2 : 0x80 ≤ b2 ∧ b2 ≤ 0xBF)
    (hc3 : 0x80 ≤ b3 ∧ b3 ≤ 0xBF)
    (hcp : ¬ ((b - 0xE0) * 0x1000 + (b2 - 0x80) * 0x40 + (b3 - 0x80) < 0x800 ∨
       (0xD800 ≤ (b - 0xE0) * 0x1000 + (b2 - 0x80) * 0x40 + (b3 - 0x80) ∧
        (b - 0xE0) * 0x1000 + (b2 - 0x80) * 0x40 + (b3 - 0x80) ≤ 0xDFFF))) :
    utf8Decode (b :: b2 :: b3 :: rest) =
      utf8Cons ((b - 0xE0) * 0x1000 + (b2 - 0x80) * 0x40 + (b3 - 0x80))
        (utf8Decode rest) := by
  simp only [utf8Decode]
  rw [utf8DecodeAux.eq_2, if_pos rfl, if_neg (by omega), if_neg (by omega),
    if_neg (by omega), if_pos h2]
  rw [utf8DecodeAux.eq_2, if_neg (by omega : ¬ (2 : Nat) = 0),
    if_pos (by simp only [isCont, Bool.and_eq_true, decide_eq_true_eq]; omega :
      isCont b2 = true),
    if_neg (by omega : ¬ (2 : Nat) = 1)]
  rw [utf8DecodeAux.eq_2, if_neg (by omega : ¬ (2 - 1 : Nat) = 0),
    if_pos (by simp only [isCont, Bool.and_eq_true, decide_eq_true_eq]; omega :
      isCont b3 = true),
    if_pos (by omega : (2 - 1 : Nat) = 1),
    if_neg (by simp only [Bool.or_eq_true, Bool.and_eq_true, decide_eq_true_eq]; omega)]
  congr 1
  omega

/-- Four-byte sequences inside the supplementary-plane range decode to
their code point. -/
theorem utf8Decode_four (b b2 b3 b4 : Nat) (rest : List Nat)
    (h1 : 0xF0 ≤ b) (h2 : b ≤ 0xF4) (hc2 : 0x80 ≤ b2 ∧ b2 ≤ 0xBF)
    (hc3 : 0x80 ≤ b3 ∧ b3 ≤ 0xBF) (hc4 : 0x80 ≤ b4 ∧ b4 ≤ 0xBF)
    (hcp : ¬ ((b - 0xF0) * 0x40000 + (b2 - 0x80) * 0x1000 + (b3 - 0x80) * 0x40 +
         (b4 - 0x80) < 0x10000 ∨
       0x10FFFF < (b - 0xF0) * 0x40000 + (b2 - 0x80) * 0x1000 + (b3 - 0x80) * 0x40 +
         (b4 - 0x80))) :
    utf8Decode (b :: b2 :: b3 :: b4 :: rest) =
      utf8Cons ((b - 0xF0) * 0x40000 + (b2 - 0x80) * 0x1000 + (b3 - 0x80) * 0x40 +
        (b4 - 0x80)) (utf8Decode rest) := by
  simp only [utf8Decode]
  rw [utf8DecodeAux.eq_2, if_pos rfl, if_neg (by omega), if_neg (by omega),
    if_neg (by omega), if_neg (by omega), if_pos h2]
  rw [utf8DecodeAux.eq_2, if_neg (by omega : ¬ (3 : Nat) = 0),
    if_pos (by simp only [isCont, Bool.and_eq_true, decide_eq_true_eq]; omega :
      isCont b2 = true),
    if_neg (by omega : ¬ (3 : Nat) = 1)]
  rw [utf8DecodeAux.eq_2, if_neg (by omega : ¬ (3 - 1 : Nat) = 0),
    if_pos (by simp only [isCont, Bool.and_eq_true, decide_eq_true_eq]; omega :
      isCont b3 = true),
    if_neg (by omega : ¬ (3 - 1 : Nat) = 1)]
  rw [utf8DecodeAux.eq_2, if_neg (by omega : ¬ (3 - 1 - 1 : Nat) = 0),
    if_pos (by simp only [isCont, Bool.and_eq_true, decide_eq_true_eq]; omega :
      isCont b4 = true),
    if_pos (by omega : (3 - 1 - 1 : Nat) = 1),
    if_neg (by simp only [Bool.or_eq_true, Bool.and_eq_true, decide_eq_true_eq]; omega)]
  congr 1
  omega

/-- Decoding inverts encoding: `utf8Decode ∘ utf8Encode = some`. -/
theorem utf8Decode_encode (cs : List Char) : utf8Decode (utf8Encode cs) = some cs := by
  induction cs with
  | nil => rfl
  | cons c cs ih =>
    have hval : c.toNat < 0xD800 ∨ (0xDFFF < c.toNat ∧ c.toNat < 0x110000) := c.valid
    have hofnat : Char.ofNat c.toNat = c := Char.ofNat_toNat c
    have henc : utf8Encode (c :: cs) =
        (if c.toNat ≤ 0x7F then c.toNat :: utf8Encode cs
         else if c.toNat ≤ 0x7FF then
           (0xC0 + c.toNat / 0x40) :: (0x80 + c.toNat % 0x40) :: utf8Encode cs
         else if c.toNat ≤ 0xFFFF then
           (0xE0 + c.toNat / 0x1000) :: (0x80 + c.toNat / 0x40 % 0x40) ::
             (0x80 + c.toNat % 0x40) :: utf8Encode cs
         else
           (0xF0 + c.toNat / 0x40000) :: (0x80 + c.toNat / 0x1000 % 0x40) ::
             (0x80 + c.toNat / 0x40 % 0x40) :: (0x80 + c.toNat % 0x40) :: utf8Encode cs) :=
      rfl
    rw [henc]
    by_cases h1 : c.toNat ≤ 0x7F
    · rw [if_pos h1, utf8Decode_one _ _ h1, ih]
      simp only [utf8Cons]
      rw [hofnat]
    · rw [if_neg h1]
      by_cases h2 : c.toNat ≤ 0x7FF
      · rw [if_pos h2, utf8Decode_two _ _ _ (by omega) (by omega) (by omega), ih]
        simp only [utf8Cons]
        rw [show (0xC0 + c.toNat / 0x40 - 0xC0) * 0x40 + (0x80 + c.toNat % 0x40 - 0x80) =
          c.toNat from by omega, hofnat]
      · rw [if_neg h2]
        by_cases h3 : c.toNat ≤ 0xFFFF
        · have harith : (0xE0 + c.toNat / 0x1000 - 0xE0) * 0x1000 +
              (0x80 + c.toNat / 0x40 % 0x40 - 0x80) * 0x40 + (0x80 + c.toNat % 0x40 - 0x80) =
              c.toNat := by omega
          rw [if_pos h3, utf8Decode_three _ _ _ _ (by omega) (by omega) (by omega)
            (by omega) (by rw [harith]; omega), ih]
          simp only [utf8Cons]
          rw [harith, hofnat]
        · have h4 : c.toNat ≤ 0x10FFFF := by omega
          have harith : (0xF0 + c.toNat / 0x40000 - 0xF0) * 0x40000 +
              (0x80 + c.toNat / 0x1000 % 0x40 - 0x80) * 0x1000 +
              (0x80 + c.toNat / 0x40 % 0x40 - 0x80) * 0x40 + (0x80 + c.toNat % 0x40 - 0x80) =
              c.toNat := by omega
          rw [if_neg h3, utf8Decode_four _ _ _ _ _ (by omega) (by omega) (by omega)
            (by omega) (by omega) (by rw [harith]; omega), ih]
          simp only [utf8Cons]
          rw [harith, hofnat]

/-! ### C5: CSV writer/parser round trip.  The step lemmas below walk the
reader automaton over the writer's output. -/

theorem aux_escape (rest : List Char) (st : Bool) (f : List Char) (r : List String)
    (rs : List (List String)) :
    csvParseAux ('"' :: '"' :: rest) true st f r rs =
      csvParseAux rest true st ('"' :: f) r rs := rfl

theorem aux_close_nil (st : Bool) (f : List Char) (r : List String)
    (rs : List (List String)) :
    csvParseAux ('"' :: ([] : List Char)) true st f r rs =
      csvParseAux [] false st f r rs := rfl

theorem aux_close (d : Char) (ds : List Char) (st : Bool) (f : List Char) (r : List String)
    (rs : List (List String)) (h : d ≠ '"') :
    csvParseAux ('"' :: d :: ds) true st f r rs =
      csvParseAux (d :: ds) false st f r rs := by
  rw [csvParseAux.eq_def]
  split
  case h_4 =>
    rename_i hne heq _
    injection heq with h1 h2
    exact absurd h1.symm hne
  all_goals simp_all

theorem aux_inq_char (c : Char) (rest : List Char) (st : Bool) (f : List Char)
    (r : List String) (rs : List (List String)) (h : c ≠ '"') :
    csvParseAux (c :: rest) true st f r rs =
      csvParseAux rest true st (c :: f) r rs := by
  rw [csvParseAux.eq_def]
  split
  all_goals simp_all


theorem aux_comma (rest : List Char) (st : Bool) (f : List Char) (r : List String)
    (rs : List (List String)) :
    csvParseAux (',' :: rest) false st f r rs =
      csvParseAux rest false true [] (String.mk f.reverse :: r) rs := rfl

theorem aux_newline (rest : List Char) (st : Bool) (f : List Char) (r : List String)
    (rs : List (List String)) :
    csvParseAux ('\n' :: rest) false st f r rs =
      csvParseAux rest false false [] []
        ((if st then (String.mk f.reverse :: r).reverse else []) :: rs) := rfl

theorem aux_openquote (rest : List Char) (st : Bool) (r : List String)
    (rs : List (List String)) :
    csvParseAux ('"' :: rest) false st [] r rs =
      csvParseAux rest true true [] r rs := by
  rw [csvParseAux.eq_def]
  split
  case h_10 =>
    rename_i hne heq _
    injection heq with h1 h2
    exact absurd h1.symm hne
  all_goals simp_all

theorem aux_eof_false (rs : List (List String)) :
    csvParseAux [] false false [] [] rs = rs.reverse := rfl


theorem foldr_dq (l : List Char) (tail : List Char) :
    l.foldr (fun c acc => if c = '"' then '"' :: '"' :: acc else c :: acc) tail =
      dqChars l ++ tail := by
  induction l with
  | nil => simp [dqChars]
  | cons c l ih =>
    simp only [List.foldr_cons, dqChars] at ih ⊢
    by_cases hc : c = '"'
    · simp [hc, ih]
    · simp [hc, ih]

theorem csvQuote_eq (s : String) :
    csvQuote s = '"' :: (dqChars s.toList ++ ['"']) := by
  unfold csvQuote
  rw [foldr_dq]

theorem aux_dq_body (l : List Char) :
    ∀ (rest : List Char) (st : Bool) (f : List Char) (r : List String)
      (rs : List (List String)),
    csvParseAux (dqChars l ++ rest) true st f r rs =
      csvParseAux rest true st (l.reverse ++ f) r rs := by
  induction l with
  | nil => intro rest st f r rs; simp [dqChars]
  | cons c l ih =>
    intro rest st f r rs
    by_cases hc : c = '"'
    · subst hc
      have hdq : dqChars ('"' :: l) = '"' :: '"' :: dqChars l := by simp [dqChars]
      rw [hdq, List.cons_append, List.cons_append, aux_escape, ih]
      simp
    · have hdq : dqChars (c :: l) = c :: dqChars l := by simp [dqChars, hc]
      rw [hdq, List.cons_append, aux_inq_char _ _ _ _ _ _ hc, ih]
      simp

theorem aux_cell (s : String) (rest : List Char) (st : Bool) (r : List String)
    (rs : List (List String)) (h : rest.head? ≠ some '"') :
    csvParseAux (csvQuote s ++ rest) false st [] r rs =
      csvParseAux rest false true s.toList.reverse r rs := by
  rw [csvQuote_eq, List.cons_append, aux_openquote]
  rw [List.append_assoc, List.singleton_append, aux_dq_body]
  rw [List.append_nil]
  cases rest with
  | nil => exact aux_close_nil _ _ _ _
  | cons d ds =>
    have hd : d ≠ '"' := by simpa using h
    exact aux_close _ _ _ _ _ _ hd

theorem head_tail_cells (cells : List String) (rest : List Char) :
    (((cells.map (fun s => ',' :: csvQuote s)).flatten ++ '\n' :: rest)).head? ≠
      some '"' := by
  cases cells with
  | nil => simp
  | cons s cs => simp [csvQuote_eq]

theorem aux_tail_cells (cells : List String) :
    ∀ (rest : List Char) (f : List Char) (r : List String) (rs : List (List String)),
    csvParseAux ((cells.map (fun s => ',' :: csvQuote s)).flatten ++ '\n' :: rest)
        false true f r rs =
      csvParseAux rest false false [] []
        (((String.mk f.reverse :: r).reverse ++ cells) :: rs) := by
  induction cells with
  | nil =>
    intro rest f r rs
    simp only [List.map_nil, List.flatten_nil, List.nil_append, aux_newline, if_pos rfl]
    simp
  | cons s cs ih =>
    intro rest f r rs
    simp only [List.map_cons, List.flatten_cons, List.cons_append, List.append_assoc]
    rw [aux_comma, aux_cell _ _ _ _ _ (head_tail_cells cs rest), ih]
    have hs : String.mk s.toList.reverse.reverse = s := by
      rw [List.reverse_reverse]
      exact rfl
    rw [hs]
    simp [List.reverse_cons, List.append_assoc]

theorem aux_record (c0 : String) (cs : List String) (rest : List Char)
    (rs : List (List String)) :
    csvParseAux (csvWriteRecord (c0 :: cs) ++ rest) false false [] [] rs =
      csvParseAux rest false false [] [] ((c0 :: cs) :: rs) := by
  show csvParseAux ((csvQuote c0 ++ (cs.map (fun s => ',' :: csvQuote s)).flatten ++
      ['\n']) ++ rest) false false [] [] rs = _
  rw [List.append_assoc, List.append_assoc, List.singleton_append]
  rw [aux_cell _ _ _ _ _ (head_tail_cells cs rest), aux_tail_cells]
  have hs : String.mk c0.toList.reverse.reverse = c0 := by
    rw [List.reverse_reverse]
    exact rfl
  rw [hs]
  simp

theorem aux_doc (records : List (List String)) :
    ∀ (rs : List (List String)), (∀ rec ∈ records, rec ≠ []) →
    csvParseAux (csvWrite records) false false [] [] rs = rs.reverse ++ records := by
  induction records with
  | nil => intro rs _; simp [csvWrite, aux_eof_false]
  | cons rec recs ih =>
    intro rs h
    have hrec : rec ≠ [] := h rec (by simp)
    obtain ⟨c0, cs, hrc⟩ : ∃ c0 cs, rec = c0 :: cs := by
      cases rec with
      | nil => exact absurd rfl hrec
      | cons a b => exact ⟨a, b, rfl⟩
    have hw : csvWrite (rec :: recs) = csvWriteRecord rec ++ csvWrite recs := by
      simp [csvWrite]
    rw [hw, hrc, aux_record, ← hrc, ih (rec :: rs) (fun x hx => h x (by simp [hx]))]
    simp

theorem csvParse_write (records : List (List String))
    (h : ∀ rec ∈ records, rec ≠ []) :
    csvParse (csvWrite records) = records := by
  unfold csvParse
  rw [aux_doc _ _ h]
  simp


/-! ### C5: association-list lemmas for the DictReader and row model -/

/-- A key outside an association list's key set has no binding. -/
theorem lookup_eq_none_of_not_mem {α : Type} [BEq α] [LawfulBEq α] {β : Type}
    {l : List (α × β)} {k : α} (h : k ∉ l.map Prod.fst) : List.lookup k l = none := by
  induction l with
  | nil => rfl
  | cons p l ih =>
    simp only [List.map_cons, List.mem_cons] at h
    push_neg at h
    simp only [List.lookup, beq_eq_false_iff_ne.mpr h.1, ih h.2]

/-- A key among an association list's keys has a binding. -/
theorem lookup_mem_keys {α : Type} [BEq α] [LawfulBEq α] {β : Type}
    {l : List (α × β)} {k : α} (h : k ∈ l.map Prod.fst) :
    ∃ v, List.lookup k l = some v := by
  induction l with
  | nil => simp at h
  | cons p l ih =>
    simp only [List.map_cons, List.mem_cons] at h
    by_cases hk : k = p.1
    · exact ⟨p.2, by simp [List.lookup, hk]⟩
    · obtain ⟨v, hv⟩ := ih (h.resolve_left hk)
      exact ⟨v, by simp [List.lookup, beq_eq_false_iff_ne.mpr hk, hv]⟩

/-- The dict built from the fieldnames has exactly the fieldnames as keys. -/
theorem keys_dictPairs (fs cells : List String) :
    (dictPairs fs cells).map Prod.fst = fs := by
  induction fs generalizing cells with
  | nil => rfl
  | cons f fs ih => simp [dictPairs, ih]

/-- Head lookup in the record dict: a fieldname not repeated later maps to
the record's first cell. -/
theorem dictRowGet_head (n : String) (ns cells : List String) (hn : n ∉ ns) :
    dictRowGet (n :: ns) cells n = cells.head? := by
  unfold dictRowGet
  have hkeys : n ∉ ((dictPairs ns cells.tail).reverse).map Prod.fst := by
    rw [List.map_reverse, keys_dictPairs]
    simpa using hn
  rw [show dictPairs (n :: ns) cells = (n, cells.head?) :: dictPairs ns cells.tail from rfl]
  rw [List.reverse_cons, List.lookup_append, lookup_eq_none_of_not_mem hkeys]
  simp [List.lookup]

/-- Tail lookup in the record dict: other fieldnames shift one position. -/
theorem dictRowGet_tail (n : String) (ns cells : List String) (k : String) (hk : k ≠ n) :
    dictRowGet (n :: ns) cells k = dictRowGet ns cells.tail k := by
  unfold dictRowGet
  rw [show dictPairs (n :: ns) cells = (n, cells.head?) :: dictPairs ns cells.tail from rfl]
  rw [List.reverse_cons, List.lookup_append]
  have hone : List.lookup k [(n, cells.head?)] = none := by
    simp [List.lookup, beq_eq_false_iff_ne.mpr hk]
  rw [hone, Option.or_none]

/-- Positional lookup in the record dict: with distinct fieldnames, the
`i`-th fieldname maps to the `i`-th cell (the `restval` `none` past the
record's end). -/
theorem dictRowGet_pos (names : List String) :
    ∀ (cells : List String), names.Nodup → ∀ (i : Nat) (hi : i < names.length),
      dictRowGet names cells (names.get ⟨i, hi⟩) = cells.get? i := by
  induction names with
  | nil => intro cells _ i hi; simp at hi
  | cons n ns ih =>
    intro cells hnd i hi
    obtain ⟨hn, hnd'⟩ := List.nodup_cons.mp hnd
    cases i with
    | zero =>
      rw [show (n :: ns).get ⟨0, hi⟩ = n from rfl, dictRowGet_head n ns cells hn]
      cases cells <;> rfl
    | succ i =>
      have hi' : i < ns.length := by simpa using hi
      have hkey : (n :: ns).get ⟨i + 1, hi⟩ = ns.get ⟨i, hi'⟩ := rfl
      have hne : ns.get ⟨i, hi'⟩ ≠ n := by
        intro heq
        exact hn (heq ▸ List.get_mem ns i hi')
      rw [hkey, dictRowGet_tail n ns cells _ hne, ih cells.tail hnd' i hi']
      cases cells <;> simp

/-- Positional lookup in a row whose keys are distinct: the key at position
`i` maps to the value at position `i`. -/
theorem lookup_pos_row (r : Row) :
    (r.map Prod.fst).Nodup → ∀ (i : Nat) (hi : i < r.length),
      List.lookup ((r.map Prod.fst).get ⟨i, by simpa using hi⟩) r =
        some (r.get ⟨i, hi⟩).2 := by
  induction r with
  | nil => intro _ i hi; simp at hi
  | cons p r ih =>
    intro hnd i hi
    rw [List.map_cons] at hnd
    obtain ⟨hn, hnd'⟩ := List.nodup_cons.mp hnd
    cases i with
    | zero =>
      simp [List.lookup]
    | succ i =>
      have hi' : i < r.length := by simpa using hi
      have hkey : ((p :: r).map Prod.fst).get ⟨i + 1, by simpa using hi⟩ =
          (r.map Prod.fst).get ⟨i, by simpa using hi'⟩ := rfl
      have hne : (r.map Prod.fst).get ⟨i, by simpa using hi'⟩ ≠ p.1 := by
        intro heq
        exact hn (heq ▸ List.get_mem _ i _)
      rw [hkey, show (p :: r).get ⟨i + 1, hi⟩ = r.get ⟨i, hi'⟩ from rfl]
      simp only [List.lookup, beq_eq_false_iff_ne.mpr hne]
      exact ih hnd' i hi'

/-- A column present in a well-keyed row looks up to its effective value. -/
theorem lookup_effectiveValue (r : Row) (p : Column) (hp : p.name ∈ r.map Prod.fst) :
    List.lookup p.name r = some (effectiveValue p r) := by
  obtain ⟨v, hv⟩ := lookup_mem_keys hp
  rw [hv]
  unfold effectiveValue
  rw [hv]

/-- A row keyed exactly by the (distinct) column names is its own INSERT
materialization. -/
theorem storedRow_of_wellformed (cols : List Column) (r : Row)
    (hnd : (cols.map Column.name).Nodup)
    (hwf : r.map Prod.fst = cols.map Column.name) :
    storedRow cols r = r := by
  have hlen : cols.length = r.length := by
    have := congrArg List.length hwf
    simpa using this.symm
  apply List.ext_getElem?
  intro i
  have hmaps := congrArg (fun l => l[i]?) hwf
  simp only [List.getElem?_map] at hmaps
  by_cases hi : i < cols.length
  · have hir : i < r.length := hlen ▸ hi
    have hc : cols[i]? = some (cols.get ⟨i, hi⟩) := List.getElem?_eq_getElem hi
    have hrr : r[i]? = some (r.get ⟨i, hir⟩) := List.getElem?_eq_getElem hir
    rw [hc, hrr] at hmaps
    have hfst : (r.get ⟨i, hir⟩).1 = (cols.get ⟨i, hi⟩).name := by
      simpa using hmaps
    have hkey : (r.map Prod.fst).get ⟨i, by simpa using hir⟩ =
        (cols.get ⟨i, hi⟩).name := by
      rw [List.get_map]
      exact hfst
    have hlook : List.lookup (cols.get ⟨i, hi⟩).name r = some (r.get ⟨i, hir⟩).2 := by
      rw [← hkey]
      exact lookup_pos_row r (hwf ▸ hnd) i hir
    have hsnd : effectiveValue (cols.get ⟨i, hi⟩) r = (r.get ⟨i, hir⟩).2 := by
      unfold effectiveValue
      rw [hlook]
    show (storedRow cols r)[i]? = r[i]?
    rw [hrr]
    unfold storedRow
    rw [List.getElem?_map, hc]
    simp only [Option.map_some']
    rw [hsnd, ← hfst]
  · have h1 : (storedRow cols r)[i]? = none := by
      apply List.getElem?_eq_none
      simp [storedRow]
      omega
    have h2 : r[i]? = none := by
      apply List.getElem?_eq_none
      omega
    rw [h1, h2]

/-- One exported-then-reimported record is the normalized original row. -/
theorem cleaned_export_row (cols : List Column) (r : Row)
    (hnd : (cols.map Column.name).Nodup)
    (hwf : r.map Prod.fst = cols.map Column.name) :
    cleanedRecord (cols.map Column.name) (cols.map Column.name)
      (cols.map (fun c =>
        match List.lookup c.name r with
        | some (some s) => s
        | _ => "")) = normalizeRow r := by
  have hlen : cols.length = r.length := by
    have := congrArg List.length hwf
    simpa using this.symm
  apply List.ext_getElem?
  intro i
  have hmaps := congrArg (fun l => l[i]?) hwf
  simp only [List.getElem?_map] at hmaps
  by_cases hi : i < cols.length
  · have hir : i < r.length := hlen ▸ hi
    have hc : cols[i]? = some (cols.get ⟨i, hi⟩) := List.getElem?_eq_getElem hi
    have hrr : r[i]? = some (r.get ⟨i, hir⟩) := List.getElem?_eq_getElem hir
    rw [hc, hrr] at hmaps
    have hfst : (r.get ⟨i, hir⟩).1 = (cols.get ⟨i, hi⟩).name := by
      simpa using hmaps
    have hkey : (r.map Prod.fst).get ⟨i, by simpa using hir⟩ =
        (cols.get ⟨i, hi⟩).name := by
      rw [List.get_map]
      exact hfst
    have hlook : List.lookup (cols.get ⟨i, hi⟩).name r = some (r.get ⟨i, hir⟩).2 := by
      rw [← hkey]
      exact lookup_pos_row r (hwf ▸ hnd) i hir
    have hnames : (cols.map Column.name).get ⟨i, by simpa using hi⟩ =
        (cols.get ⟨i, hi⟩).name := List.get_map Column.name
    have hcell : (cols.map (fun c =>
        match List.lookup c.name r with
        | some (some s) => s
        | _ => "")).get? i = some (match List.lookup (cols.get ⟨i, hi⟩).name r with
        | some (some s) => s
        | _ => "") := by
      rw [List.get?_eq_getElem?, List.getElem?_map, hc, Option.map_some']
    have hdict : dictRowGet (cols.map Column.name) (cols.map (fun c =>
        match List.lookup c.name r with
        | some (some s) => s
        | _ => "")) ((cols.map Column.name).get ⟨i, by simpa using hi⟩) =
        some (match List.lookup (cols.get ⟨i, hi⟩).name r with
        | some (some s) => s
        | _ => "") := by
      rw [dictRowGet_pos (cols.map Column.name) _ hnd i (by simpa using hi)]
      exact hcell
    have hni : i < (cols.map Column.name).length := by simpa using hi
    have hL : (cleanedRecord (cols.map Column.name) (cols.map Column.name)
        (cols.map (fun c =>
          match List.lookup c.name r with
          | some (some s) => s
          | _ => "")))[i]? =
        some ((cols.map Column.name).get ⟨i, hni⟩,
          if dictRowGet (cols.map Column.name) (cols.map (fun c =>
            match List.lookup c.name r with
            | some (some s) => s
            | _ => "")) ((cols.map Column.name).get ⟨i, hni⟩) = some "" then none
          else dictRowGet (cols.map Column.name) (cols.map (fun c =>
            match List.lookup c.name r with
            | some (some s) => s
            | _ => "")) ((cols.map Column.name).get ⟨i, hni⟩)) := by
      unfold cleanedRecord
      rw [List.getElem?_map, List.getElem?_eq_getElem hni, Option.map_some']
      rfl
    have hR : (normalizeRow r)[i]? =
        some ((r.get ⟨i, hir⟩).1, normalizeValue (r.get ⟨i, hir⟩).2) := by
      unfold normalizeRow
      rw [List.getElem?_map, hrr, Option.map_some']
    show (cleanedRecord _ _ _)[i]? = (normalizeRow r)[i]?
    rw [hL, hR, hdict, hnames, hlook, ← hfst]
    refine congrArg some (Prod.ext rfl ?_)
    show (if (some (match some (r.get ⟨i, hir⟩).2 with
        | some (some s) => s
        | _ => "") : Value) = some "" then none
      else (some (match some (r.get ⟨i, hir⟩).2 with
        | some (some s) => s
        | _ => "") : Value)) = normalizeValue (r.get ⟨i, hir⟩).2
    cases hv : (r.get ⟨i, hir⟩).2 with
    | none => simp [normalizeValue]
    | some s =>
      by_cases hs : s = ""
      · subst hs
        simp [normalizeValue]
      · simp [normalizeValue, hs]
  · have h1 : (cleanedRecord (cols.map Column.name) (cols.map Column.name)
        (cols.map (fun c =>
          match List.lookup c.name r with
          | some (some s) => s
          | _ => "")))[i]? = none := by
      apply List.getElem?_eq_none
      simp [cleanedRecord]
      omega
    have h2 : (normalizeRow r)[i]? = none := by
      apply List.getElem?_eq_none
      simp [normalizeRow]
      omega
    rw [h1, h2]

/-! ### C5: decoding and parsing the exported document -/

/-- A byte stream not led by `0xEF` cannot carry a BOM, so the `utf-8-sig`
decode is the plain decode. -/
theorem utf8SigDecode_ne_bom (b : Nat) (bs : List Nat) (hb : b ≠ 0xEF) :
    utf8SigDecode (b :: bs) = utf8Decode (b :: bs) := by
  cases bs with
  | nil => rfl
  | cons x xs =>
    cases xs with
    | nil => rfl
    | cons y ys =>
      show (if b = 0xEF ∧ x = 0xBB ∧ y = 0xBF then utf8Decode ys
        else utf8Decode (b :: x :: y :: ys)) = _
      rw [if_neg (fun h => hb h.1)]

/-- The upload-decoding chain on a stream not led by `0xEF`. -/
theorem decodeUpload_ne_bom (b : Nat) (bs : List Nat) (hb : b ≠ 0xEF) :
    decodeUpload (b :: bs) = utf8Decode (b :: bs) := by
  unfold decodeUpload
  rw [utf8SigDecode_ne_bom b bs hb]
  cases utf8Decode (b :: bs) <;> rfl

/-- The exported document of a table with at least one column starts with
the opening quote of the header's first cell. -/
theorem exists_cons_of_head_eq {l : List Char} {a : Char} (h : l.head? = some a) :
    ∃ xs, l = a :: xs := by
  cases l with
  | nil => simp at h
  | cons b bs => exact ⟨bs, by simpa using (congrArg (fun o => Option.getD o b) h.symm).symm⟩

theorem csvWrite_export_head (t : Table) (hne : t.columns ≠ []) :
    ∃ cs, csvWrite (exportRecords t) = '"' :: cs := by
  obtain ⟨c0, cols', hc⟩ : ∃ c0 cols', t.columns = c0 :: cols' := by
    cases hcc : t.columns with
    | nil => exact absurd hcc hne
    | cons a b => exact ⟨a, b, rfl⟩
  apply exists_cons_of_head_eq
  have h1 : csvWrite (exportRecords t) =
      csvWriteRecord (t.columns.map Column.name) ++
        ((t.rows.map (fun r => t.columns.map (fun c =>
          match List.lookup c.name r with
          | some (some s) => s
          | _ => ""))).map csvWriteRecord).flatten := by
    simp [csvWrite, exportRecords]
  rw [h1, hc]
  rw [show csvWriteRecord ((c0 :: cols').map Column.name) =
    csvQuote c0.name ++
      ((cols'.map Column.name).map (fun s => ',' :: csvQuote s)).flatten ++ ['\n']
    from rfl]
  rw [csvQuote_eq]
  simp

/-- Decoding the exported bytes recovers the exported document. -/
theorem decodeUpload_exportCsv (t : Table) (hne : t.columns ≠ []) :
    decodeUpload (exportCsv t) = some (csvWrite (exportRecords t)) := by
  obtain ⟨cs, hcs⟩ := csvWrite_export_head t hne
  unfold exportCsv
  rw [hcs]
  rw [show utf8Encode ('"' :: cs) = 0x22 :: utf8Encode cs from rfl]
  rw [decodeUpload_ne_bom _ _ (by omega)]
  rw [show (0x22 :: utf8Encode cs : List Nat) = utf8Encode ('"' :: cs) from rfl]
  rw [utf8Decode_encode]

/-- The exported byte stream of a table with columns is never empty. -/
theorem exportCsv_ne_nil (t : Table) (hne : t.columns ≠ []) : exportCsv t ≠ [] := by
  obtain ⟨cs, hcs⟩ := csvWrite_export_head t hne
  unfold exportCsv
  rw [hcs]
  rw [show utf8Encode ('"' :: cs) = 0x22 :: utf8Encode cs from rfl]
  simp

/-- Every record the export writes is nonempty when the table has columns. -/
theorem exportRecords_ne_nil (t : Table) (hne : t.columns ≠ []) :
    ∀ rec ∈ exportRecords t, rec ≠ [] := by
  intro rec hrec
  unfold exportRecords at hrec
  rcases List.mem_cons.mp hrec with h | h
  · subst h
    simpa using hne
  · obtain ⟨r, _, hr⟩ := List.mem_map.mp h
    rw [← hr]
    simpa using hne

/-- Parsing the exported document recovers the export's records. -/
theorem csvParse_exportCsv (t : Table) (hne : t.columns ≠ []) :
    csvParse (csvWrite (exportRecords t)) = exportRecords t :=
  csvParse_write _ (exportRecords_ne_nil t hne)

/-- Stripping whitespace fixes already-stripped column names. -/
theorem map_pyStrip_names (cols : List Column)
    (htrim : ∀ c ∈ cols, pyStrip c.name = c.name) :
    (cols.map Column.name).map pyStrip = cols.map Column.name := by
  rw [List.map_map]
  exact List.map_congr_left (fun c hc => htrim c hc)

/-! ### C5: the re-import's INSERT sequence succeeds -/

/-- Inserting well-keyed rows succeeds when no NOT NULL column receives
NULL and the primary-key values are fresh and pairwise distinct; each row
lands unchanged. -/
theorem runInserts_ok_of_valid (cols : List Column)
    (hnd : (cols.map Column.name).Nodup) :
    ∀ (rows : List Row) (t : Table), t.columns = cols →
    (∀ r' ∈ t.rows, r'.map Prod.fst = cols.map Column.name) →
    (∀ r ∈ rows, r.map Prod.fst = cols.map Column.name) →
    (∀ r ∈ rows, ∀ c ∈ cols, c.notnull = true → (effectiveValue c r).isSome) →
    (∀ p, cols.filter (fun c => c.pk) = [p] →
       (∀ r ∈ rows, ∀ r' ∈ t.rows, effectiveValue p r' ≠ effectiveValue p r) ∧
       (rows.map (fun r => effectiveValue p r)).Nodup) →
    runInserts t rows = .ok { columns := t.columns, rows := t.rows ++ rows } := by
  intro rows
  induction rows with
  | nil =>
    intro t htc hwt hwr hnn
    intro _
    simp only [runInserts, List.append_nil]
  | cons r rows ih =>
    intro t htc hwt hwr hnn hpk
    have hviol : insertViolation t r = false := by
      unfold insertViolation
      rw [Bool.or_eq_false_iff]
      constructor
      · rw [List.any_eq_false]
        intro c hc
        rw [htc] at hc
        intro hand
        rw [Bool.and_eq_true] at hand
        have hs := hnn r (List.mem_cons_self r rows) c hc hand.1
        cases h' : effectiveValue c r with
        | none => rw [h'] at hs; simp at hs
        | some v =>
          have h2 := hand.2
          rw [h'] at h2
          simp at h2
      · rw [htc]
        cases hfilt : cols.filter (fun c => c.pk) with
        | nil => rfl
        | cons p ps =>
          cases ps with
          | nil =>
            obtain ⟨hfresh, _⟩ := hpk p hfilt
            dsimp only
            cases hev : effectiveValue p r with
            | none => rfl
            | some v =>
              rw [List.any_eq_false]
              intro r' hr'
              simp only [decide_eq_true_eq]
              intro heq
              have hwf' := hwt r' hr'
              have hp : p ∈ cols := by
                have : p ∈ cols.filter (fun c => c.pk) := by rw [hfilt]; simp
                exact (List.mem_filter.mp this).1
              have hpn : p.name ∈ r'.map Prod.fst := by
                rw [hwf']
                exact List.mem_map.mpr ⟨p, hp, rfl⟩
              have hlook := lookup_effectiveValue r' p hpn
              rw [hlook] at heq
              have hev' : effectiveValue p r' = some v := by
                simpa using heq
              exact hfresh r (List.mem_cons_self r rows) r' hr' (hev' ▸ hev ▸ rfl)
          | cons q qs => rfl
    have hstored : storedRow t.columns r = r := by
      rw [htc]
      exact storedRow_of_wellformed cols r hnd (hwr r (List.mem_cons_self r rows))
    have hins : insertRow t r = .ok { t with rows := t.rows ++ [r] } := by
      unfold insertRow
      rw [if_neg (by simp [hviol]), hstored]
    show runInserts t (r :: rows) = _
    unfold runInserts
    rw [hins]
    dsimp only
    have hih := ih { t with rows := t.rows ++ [r] } htc
      (by
        intro r' hr'
        rcases List.mem_append.mp hr' with h | h
        · exact hwt r' h
        · rw [List.mem_singleton.mp h]
          exact hwr r (List.mem_cons_self r rows))
      (fun r2 h2 => hwr r2 (List.mem_cons_of_mem r h2))
      (fun r2 h2 => hnn r2 (List.mem_cons_of_mem r h2))
      (by
        intro p hfilt
        obtain ⟨hfresh, hnodup⟩ := hpk p hfilt
        rw [List.map_cons, List.nodup_cons] at hnodup
        refine ⟨?_, hnodup.2⟩
        intro r2 h2 r' hr'
        rcases List.mem_append.mp hr' with h | h
        · exact hfresh r2 (List.mem_cons_of_mem r h2) r' h
        · rw [List.mem_singleton.mp h]
          intro heq
          exact hnodup.1 (heq ▸ List.mem_map.mpr ⟨r2, h2, rfl⟩))
    rw [hih]
    show _ = Except.ok { columns := t.columns, rows := t.rows ++ r :: rows }
    rw [show ((t.rows ++ [r]) ++ rows : List Row) = t.rows ++ r :: rows from by
      rw [List.append_assoc]; rfl]

/-! ### C5: assembly -/

/-- Re-importing the exported document yields exactly the normalized
original rows as `rows_to_insert`. -/
theorem export_reimport_rows (t : Table)
    (hne : t.columns ≠ [])
    (hnd : (t.columns.map Column.name).Nodup)
    (hwf : ∀ r ∈ t.rows, r.map Prod.fst = t.columns.map Column.name) :
    (((csvParse (csvWrite (exportRecords t))).drop 1).filter (fun r => r ≠ [])).map
      (cleanedRecord (t.columns.map Column.name)
        ((csvParse (csvWrite (exportRecords t))).head?.getD [])) =
      t.rows.map normalizeRow := by
  rw [csvParse_exportCsv t hne]
  rw [show (exportRecords t).head?.getD [] = t.columns.map Column.name from rfl]
  rw [show (exportRecords t).drop 1 = t.rows.map (fun r => t.columns.map (fun c =>
      match r.lookup c.name with
      | some (some s) => s
      | _ => "")) from rfl]
  rw [List.filter_eq_self.mpr (by
    intro x hx
    obtain ⟨r, _, hr⟩ := List.mem_map.mp hx
    subst hr
    simp only [ne_eq, decide_not, Bool.not_eq_eq_eq_not, Bool.not_true, decide_eq_false_iff_not]
    simpa using hne)]
  rw [List.map_map]
  apply List.map_congr_left
  intro r hr
  exact cleaned_export_row t.columns r hnd (hwf r hr)

/-- **C5** (amended): exporting a table and re-importing the bytes in
`"overwrite"` mode succeeds and leaves exactly the original row set with
every empty-string cell turned into NULL — provided the normalized rows
still satisfy the table's NOT NULL constraints and keep distinct
primary-key values; without that proviso the round trip can fail outright
(see the counterexample). -/
theorem c5_roundtrip (db : Database) (table_name : String) (t : Table)
    (hmem : table_name ∈ fetch_table_names db)
    (hget : getTable db table_name = some t)
    (hne : t.columns ≠ [])
    (htrim : ∀ c ∈ t.columns, pyStrip c.name = c.name)
    (hnd : (t.columns.map Column.name).Nodup)
    (hwf : ∀ r ∈ t.rows, r.map Prod.fst = t.columns.map Column.name)
    (hnn : ∀ r ∈ t.rows, ∀ c ∈ t.columns, c.notnull = true →
       (effectiveValue c (normalizeRow r)).isSome)
    (hpk : ∀ p, t.columns.filter (fun c => c.pk) = [p] →
       ((t.rows.map normalizeRow).map (fun r => effectiveValue p r)).Nodup) :
    import_database_table db table_name "overwrite" (exportCsv t) =
      (.ok { status := "imported", rows := t.rows.length, mode := "overwrite" },
       setTable db table_name { columns := t.columns, rows := t.rows.map normalizeRow }) := by
  have hhdr0 : ((csvParse (csvWrite (exportRecords t))).head?.getD []) =
      t.columns.map Column.name := by
    rw [csvParse_exportCsv t hne]
    rfl
  have hhdr : ((csvParse (csvWrite (exportRecords t))).head?.getD []).map pyStrip =
      t.columns.map Column.name := by
    rw [hhdr0, map_pyStrip_names t.columns htrim]
  have hhdr_ne : ((csvParse (csvWrite (exportRecords t))).head?.getD []).map pyStrip ≠
      [] := by
    rw [hhdr]
    simpa using hne
  have hins : runInserts { t with rows := [] } (t.rows.map normalizeRow) =
      .ok { columns := t.columns, rows := t.rows.map normalizeRow } := by
    have h := runInserts_ok_of_valid t.columns hnd (t.rows.map normalizeRow)
      { t with rows := [] } rfl (by intro r' hr'; cases hr')
      (by
        intro nr hnr
        obtain ⟨r0, hr0, hback⟩ := List.mem_map.mp hnr
        subst hback
        show (r0.map (fun kv => (kv.1, normalizeValue kv.2))).map Prod.fst =
          t.columns.map Column.name
        rw [List.map_map]
        rw [show r0.map (Prod.fst ∘ (fun kv : String × Value => (kv.1, normalizeValue kv.2))) =
          r0.map Prod.fst from List.map_congr_left (fun kv _ => rfl)]
        exact hwf r0 hr0)
      (by
        intro nr hnr c hc hcn
        obtain ⟨r0, hr0, hback⟩ := List.mem_map.mp hnr
        subst hback
        exact hnn r0 hr0 c hc hcn)
      (by
        intro p hfilt
        refine ⟨fun _ _ r' hr' => absurd hr' (List.not_mem_nil r'), ?_⟩
        exact hpk p hfilt)
    simpa using h
  have hmain := import_overwrite_ok db table_name t (exportCsv t)
    (csvWrite (exportRecords t)) (t.rows.map normalizeRow)
    { columns := t.columns, rows := t.rows.map normalizeRow }
    hmem hget (exportCsv_ne_nil t hne) (decodeUpload_exportCsv t hne)
    hhdr_ne hhdr (export_reimport_rows t hne hnd hwf).symm hins
  simpa using hmain

/-- Counterexample to C5 as stated: for the `accounts` table whose NOT NULL
`email` column holds the empty string, export then overwrite-import does not
reproduce the row set with that cell as NULL — the normalized cell violates
NOT NULL, every insert rolls back, the endpoint reports the constraint
violation, and the table keeps its original empty-string cell. -/
theorem c5_counterexample :
    import_database_table nnDb "accounts" "overwrite" (exportCsv nnTable) =
      (.error (.dbError "constraint violation"), nnDb) ∧
    getTable nnDb "accounts" = some nnTable ∧
    nnTable.rows ≠ nnTable.rows.map normalizeRow := by
  refine ⟨by rfl, by rfl, by decide⟩

/-- Witness for C5 on the `users` fixture: the round trip succeeds and
reproduces the single row unchanged (it has no empty-string cells). -/
theorem c5_roundtrip_witness :
    import_database_table demoDb "users" "overwrite" (exportCsv usersTable) =
      (.ok { status := "imported", rows := usersTable.rows.length, mode := "overwrite" },
       setTable demoDb "users"
         { columns := usersTable.columns, rows := usersTable.rows.map normalizeRow }) := by
  refine c5_roundtrip demoDb "users" usersTable (by decide) (by rfl) (by decide)
    (by decide) (by decide) (by decide) (by decide) ?_
  intro p hp
  have hp' : [idCol] = [p] := hp
  have hpe : p = idCol := by
    injection hp' with h1 _
    exact h1.symm
  subst hpe
  decide


end AdminConsole
